import Mathlib

/-!
Verification development for the `hide-ff-title-bar` native-messaging helper
(`native/native.py`). The Python program is shallowly embedded: byte streams
are `List Nat` (byte values), text is `List Nat` (Unicode code points), JSON
values are the inductive `Json`, external commands are an explicit `Env`
record, and the fallible Python functions return `Except`/`Option`.
-/

/-- Converts a Lean string literal to its list of Unicode code points. Used
only to write concrete text constants readably. -/
def s2c (s : String) : List Nat := s.data.map Char.toNat

/-- JSON values as produced by Python's `json` module, restricted to integer
numbers (the program never handles floats). Objects are insertion-ordered
key/value lists; Python `dict`s cannot hold duplicate keys, which the
well-formedness predicate `wfJson` below captures. -/
inductive Json where
  | null : Json
  | bool (b : Bool) : Json
  | num (n : Int) : Json
  | str (s : List Nat) : Json
  | arr (elems : List Json) : Json
  | obj (fields : List (List Nat × Json)) : Json

mutual

/-- Size measure for `Json`, used as parser fuel bound and induction measure. -/
def jsize : Json → Nat
  | .null => 1
  | .bool _ => 1
  | .num _ => 1
  | .str _ => 1
  | .arr [] => 1
  | .arr (x :: xs) => 1 + jsizeL (x :: xs)
  | .obj [] => 1
  | .obj (kv :: kvs) => 1 + jsizeF (kv :: kvs)

/-- Size measure for JSON array element lists. -/
def jsizeL : List Json → Nat
  | [] => 0
  | x :: xs => jsize x + 1 + jsizeL xs

/-- Size measure for JSON object field lists. -/
def jsizeF : List (List Nat × Json) → Nat
  | [] => 0
  | kv :: kvs => jsize kv.2 + 1 + jsizeF kvs

end

/-- Lowercase hexadecimal digit character for a value below 16, as produced
by Python's `\uXXXX` escaping. -/
def hexChar (d : Nat) : Nat := if d < 10 then 48 + d else 87 + d

/-- Four-digit lowercase hexadecimal rendering of a code unit. -/
def hex4 (c : Nat) : List Nat :=
  [hexChar (c / 4096 % 16), hexChar (c / 256 % 16), hexChar (c / 16 % 16), hexChar (c % 16)]

/-- Python `json.dumps` ASCII escaping of one character (`ensure_ascii=True`,
the default used by `send_message`): the two mandatory escapes, the five
short control escapes, `\uXXXX` for other controls and for all non-ASCII
characters (as a surrogate pair above U+FFFF), and the character itself
otherwise. -/
def escapeChar (c : Nat) : List Nat :=
  if c = 34 then [92, 34]
  else if c = 92 then [92, 92]
  else if c = 8 then [92, 98]
  else if c = 9 then [92, 116]
  else if c = 10 then [92, 110]
  else if c = 12 then [92, 102]
  else if c = 13 then [92, 114]
  else if c < 32 ∨ 126 < c then
    if c < 65536 then 92 :: 117 :: hex4 c
    else 92 :: 117 :: hex4 (55296 + (c - 65536) / 1024) ++ 92 :: 117 :: hex4 (56320 + (c - 65536) % 1024)
  else [c]

/-- ASCII escaping of a whole string body (without the surrounding quotes). -/
def escapeStr (s : List Nat) : List Nat := s.flatMap escapeChar

/-- Accumulator loop for decimal digits; the fuel argument only makes the
recursion structural and is never exhausted by the callers. -/
def natDigitsGo : Nat → Nat → List Nat → List Nat
  | 0, _, acc => acc
  | fuel + 1, n, acc =>
    if n < 10 then (48 + n) :: acc
    else natDigitsGo fuel (n / 10) ((48 + n % 10) :: acc)

/-- Decimal digits of a natural number, most significant first. -/
def natDigits (n : Nat) : List Nat := natDigitsGo (n + 1) n []

/-- The digit loop only moves its accumulator to the right of its result. -/
theorem natDigitsGo_acc (f : Nat) : ∀ n acc, n < 10 ^ f →
    natDigitsGo f n acc = natDigitsGo f n [] ++ acc := by
  induction f with
  | zero => intro n acc _; simp [natDigitsGo]
  | succ f ih =>
    intro n acc h
    by_cases h10 : n < 10
    · simp [natDigitsGo, h10]
    · simp only [natDigitsGo, if_neg h10]
      have hdiv : n / 10 < 10 ^ f := by
        have h2 : 10 ^ (f + 1) = 10 ^ f * 10 := pow_succ 10 f
        exact Nat.div_lt_of_lt_mul (by omega)
      rw [ih (n / 10) ((48 + n % 10) :: acc) hdiv, ih (n / 10) [48 + n % 10] hdiv]
      simp

/-- The digit loop ignores its fuel once the fuel is sufficient. -/
theorem natDigitsGo_fuel (f : Nat) : ∀ g n acc, n < 10 ^ f → n < 10 ^ g →
    1 ≤ f → 1 ≤ g → natDigitsGo f n acc = natDigitsGo g n acc := by
  induction f with
  | zero => intro g n acc _ _ hf _; omega
  | succ f ih =>
    intro g n acc hf hg _ hg1
    obtain ⟨g1, rfl⟩ : ∃ g1, g = g1 + 1 := ⟨g - 1, by omega⟩
    by_cases h10 : n < 10
    · simp [natDigitsGo, h10]
    · simp only [natDigitsGo, if_neg h10]
      have hf2 : 10 ^ (f + 1) = 10 ^ f * 10 := pow_succ 10 f
      have hg2 : 10 ^ (g1 + 1) = 10 ^ g1 * 10 := pow_succ 10 g1
      have hf3 : n / 10 < 10 ^ f := Nat.div_lt_of_lt_mul (by omega)
      have hg3 : n / 10 < 10 ^ g1 := Nat.div_lt_of_lt_mul (by omega)
      have hf1 : 1 ≤ f := by
        rcases Nat.eq_zero_or_pos f with rfl | hp
        · norm_num at hf; omega
        · exact hp
      have hg4 : 1 ≤ g1 := by
        rcases Nat.eq_zero_or_pos g1 with rfl | hp
        · norm_num at hg; omega
        · exact hp
      exact ih g1 (n / 10) ((48 + n % 10) :: acc) hf3 hg3 hf1 hg4

/-- Every natural number is below the corresponding power of ten. -/
theorem nat_lt_10pow (n : Nat) : n < 10 ^ (n + 1) := by
  induction n with
  | zero => norm_num
  | succ n ih =>
    have h2 : 10 ^ (n + 1 + 1) = 10 ^ (n + 1) * 10 := pow_succ 10 (n + 1)
    omega

/-- The recursive characterization of the decimal digits. -/
theorem natDigits_unfold (n : Nat) :
    natDigits n = if n < 10 then [48 + n] else natDigits (n / 10) ++ [48 + n % 10] := by
  by_cases h10 : n < 10
  · rw [if_pos h10, natDigits]
    simp [natDigitsGo, h10]
  · rw [if_neg h10, natDigits, natDigits]
    simp only [natDigitsGo, if_neg h10]
    have hq1 : n / 10 + 1 ≤ n := by omega
    have hb1 : n / 10 < 10 ^ n := by
      have h1 := nat_lt_10pow (n / 10)
      have h2 : (10 : Nat) ^ (n / 10 + 1) ≤ 10 ^ n :=
        Nat.pow_le_pow_right (by norm_num) hq1
      omega
    have hb2 : n / 10 < 10 ^ (n / 10 + 1) := nat_lt_10pow (n / 10)
    rw [natDigitsGo_acc n (n / 10) [48 + n % 10] hb1]
    rw [natDigitsGo_fuel n (n / 10 + 1) (n / 10) [] hb1 hb2 (by omega) (by omega)]
    rfl

/-- Decimal rendering of an integer, with a leading minus sign if negative. -/
def renderInt (i : Int) : List Nat :=
  if i < 0 then 45 :: natDigits i.natAbs else natDigits i.natAbs

mutual

/-- Compact JSON serialization of a value: Python `json.dumps` with its
default separators `(", ", ": ")` and `ensure_ascii=True`. -/
def render : Json → List Nat
  | .null => [110, 117, 108, 108]
  | .bool true => [116, 114, 117, 101]
  | .bool false => [102, 97, 108, 115, 101]
  | .num i => renderInt i
  | .str s => 34 :: escapeStr s ++ [34]
  | .arr [] => [91, 93]
  | .arr (x :: xs) => 91 :: (render x ++ renderItemsRest xs) ++ [93]
  | .obj [] => [123, 125]
  | .obj (kv :: kvs) =>
      123 :: ((34 :: escapeStr kv.1 ++ 34 :: 58 :: 32 :: render kv.2) ++ renderFieldsRest kvs)
        ++ [125]

/-- The item separators `", "` and remaining elements after the first one. -/
def renderItemsRest : List Json → List Nat
  | [] => []
  | y :: ys => 44 :: 32 :: (render y ++ renderItemsRest ys)

/-- The item separators `", "` and remaining fields after the first one. -/
def renderFieldsRest : List (List Nat × Json) → List Nat
  | [] => []
  | kv :: kvs =>
      44 :: 32 :: ((34 :: escapeStr kv.1 ++ 34 :: 58 :: 32 :: render kv.2) ++ renderFieldsRest kvs)

end

/-- Array elements joined by the default item separator `", "`. -/
def renderItems (x : Json) (xs : List Json) : List Nat := render x ++ renderItemsRest xs

/-- Object fields (`"key": value`) joined by the default item separator. -/
def renderFields (k : List Nat) (v : Json) (kvs : List (List Nat × Json)) : List Nat :=
  (34 :: escapeStr k ++ 34 :: 58 :: 32 :: render v) ++ renderFieldsRest kvs

/-- Rendering a non-empty array brackets its joined elements. -/
theorem render_arr_cons (x : Json) (xs : List Json) :
    render (.arr (x :: xs)) = 91 :: renderItems x xs ++ [93] := rfl

/-- Rendering a non-empty object braces its joined fields. -/
theorem render_obj_cons (k : List Nat) (v : Json) (kvs : List (List Nat × Json)) :
    render (.obj ((k, v) :: kvs)) = 123 :: renderFields k v kvs ++ [125] := rfl

/-- A single element renders to itself. -/
theorem renderItems_nil (x : Json) : renderItems x [] = render x := by
  simp [renderItems, renderItemsRest]

/-- Joined elements separate the first from the rest with `", "`. -/
theorem renderItems_cons (x y : Json) (ys : List Json) :
    renderItems x (y :: ys) = render x ++ 44 :: 32 :: renderItems y ys := by
  simp [renderItems, renderItemsRest]

/-- A single field renders as quoted key, `": "`, and value. -/
theorem renderFields_nil (k : List Nat) (v : Json) :
    renderFields k v [] = 34 :: escapeStr k ++ 34 :: 58 :: 32 :: render v := by
  simp [renderFields, renderFieldsRest]

/-- Joined fields separate the first from the rest with `", "`. -/
theorem renderFields_cons (k : List Nat) (v : Json) (k1 : List Nat) (v1 : Json)
    (kvs : List (List Nat × Json)) :
    renderFields k v ((k1, v1) :: kvs) =
      (34 :: escapeStr k ++ 34 :: 58 :: 32 :: render v) ++ 44 :: 32 :: renderFields k1 v1 kvs := by
  simp [renderFields, renderFieldsRest]

/-- Validity of a Python text string that is also well-formed Unicode: every
code point is a Unicode scalar value (below U+110000 and not a surrogate). -/
def validStr (s : List Nat) : Bool :=
  s.all (fun c => decide (c < 1114112 ∧ ¬(55296 ≤ c ∧ c ≤ 57343)))

/-- Pairwise distinctness of the keys of a JSON object field list, as holds
for every Python `dict`. -/
def keysNodupB : List (List Nat × Json) → Bool
  | [] => true
  | kv :: kvs => !(kvs.any (fun kv1 => kv1.1 == kv.1)) && keysNodupB kvs

mutual

/-- Well-formedness of a `Json` value: it denotes an actual Python JSON value
(valid Unicode strings, duplicate-free object keys). -/
def wfJson : Json → Bool
  | .null => true
  | .bool _ => true
  | .num _ => true
  | .str s => validStr s
  | .arr xs => wfL xs
  | .obj kvs => keysNodupB kvs && wfF kvs

/-- Well-formedness of a list of array elements. -/
def wfL : List Json → Bool
  | [] => true
  | x :: xs => wfJson x && wfL xs

/-- Well-formedness of a list of object fields. -/
def wfF : List (List Nat × Json) → Bool
  | [] => true
  | kv :: kvs => validStr kv.1 && wfJson kv.2 && wfF kvs

end

/-- JSON whitespace recognizer (space, tab, line feed, carriage return), as
skipped by Python's `json` scanner between tokens. -/
def isWs (c : Nat) : Bool := decide (c = 32 ∨ c = 9 ∨ c = 10 ∨ c = 13)

/-- Drops leading JSON whitespace. -/
def skipWs (s : List Nat) : List Nat := s.dropWhile isWs

/-- Value of one hexadecimal digit character, if it is one. -/
def parseHexDigit (c : Nat) : Option Nat :=
  if 48 ≤ c ∧ c ≤ 57 then some (c - 48)
  else if 97 ≤ c ∧ c ≤ 102 then some (c - 87)
  else if 65 ≤ c ∧ c ≤ 70 then some (c - 55)
  else none

/-- Value of a four-digit hexadecimal escape body. -/
def parseHex4 (a b c d : Nat) : Option Nat :=
  match parseHexDigit a, parseHexDigit b, parseHexDigit c, parseHexDigit d with
  | some x1, some x2, some x3, some x4 => some (4096 * x1 + 256 * x2 + 16 * x3 + x4)
  | _, _, _, _ => none

/-- Replacement character of a single-character JSON escape sequence. -/
def unescapeChar (e : Nat) : Option Nat :=
  if e = 34 then some 34
  else if e = 92 then some 92
  else if e = 47 then some 47
  else if e = 98 then some 8
  else if e = 102 then some 12
  else if e = 110 then some 10
  else if e = 114 then some 13
  else if e = 116 then some 9
  else none

/-- JSON string-body scanner, entered after the opening quote, as in Python's
strict `json` decoder: returns the decoded characters and the input after the
closing quote; raw control characters are rejected; a `\\uXXXX` escape that is
a high surrogate immediately followed by a low-surrogate escape yields the
combined code point, while a lone surrogate escape is kept as is. The fuel
argument only makes the recursion structural; every caller passes at least
the input length plus one, which the scanner never exhausts. -/
def parseStringBody : Nat → List Nat → Option (List Nat × List Nat)
  | 0, _ => none
  | _ + 1, [] => none
  | fuel + 1, c :: r =>
    if c = 34 then some ([], r)
    else if c = 92 then
      match r with
      | [] => none
      | e :: r2 =>
        if e = 117 then
          match r2 with
          | h1 :: h2 :: h3 :: h4 :: r6 =>
            match parseHex4 h1 h2 h3 h4 with
            | none => none
            | some cp1 =>
              if 55296 ≤ cp1 ∧ cp1 ≤ 56319 then
                match r6 with
                | 92 :: 117 :: g1 :: g2 :: g3 :: g4 :: r12 =>
                  match parseHex4 g1 g2 g3 g4 with
                  | none => none
                  | some cp2 =>
                    if 56320 ≤ cp2 ∧ cp2 ≤ 57343 then
                      (parseStringBody fuel r12).map
                        (fun p => ((65536 + (cp1 - 55296) * 1024 + (cp2 - 56320)) :: p.1, p.2))
                    else
                      (parseStringBody fuel (92 :: 117 :: g1 :: g2 :: g3 :: g4 :: r12)).map
                        (fun p => (cp1 :: p.1, p.2))
                | 92 :: 117 :: _ => none
                | _ => (parseStringBody fuel r6).map (fun p => (cp1 :: p.1, p.2))
              else (parseStringBody fuel r6).map (fun p => (cp1 :: p.1, p.2))
          | _ => none
        else
          match unescapeChar e with
          | some uc => (parseStringBody fuel r2).map (fun p => (uc :: p.1, p.2))
          | none => none
    else if c < 32 then none
    else (parseStringBody fuel r).map (fun p => (c :: p.1, p.2))

/-- Accumulating decimal-digit scanner: consumes leading digits. -/
def takeDigitsAcc (acc : Nat) : List Nat → Nat × List Nat
  | [] => (acc, [])
  | c :: r => if 48 ≤ c ∧ c ≤ 57 then takeDigitsAcc (acc * 10 + (c - 48)) r else (acc, c :: r)

/-- JSON unsigned-number scanner following the grammar Python's decoder uses
for the integer part: a lone `0`, or a nonzero digit followed by digits.
Fractional and exponent parts are outside this model (the program only ever
handles integer numbers). -/
def parseNat : List Nat → Option (Nat × List Nat)
  | [] => none
  | c :: r =>
    if c = 48 then some (0, r)
    else if 49 ≤ c ∧ c ≤ 57 then some (takeDigitsAcc (c - 48) r)
    else none

/-- Insertion of a key into an association list with Python `dict` update
semantics: replace the value in place if the key exists, else append. -/
def insertKey : List (List Nat × Json) → List Nat → Json → List (List Nat × Json)
  | [], k, v => [(k, v)]
  | (k1, v1) :: r, k, v => if k1 = k then (k1, v) :: r else (k1, v1) :: insertKey r k v

/-- Folds parsed object members into a `dict` the way Python builds it,
so a duplicated key keeps its first position and its last value. -/
def dedupPairs (l : List (List Nat × Json)) : List (List Nat × Json) :=
  l.foldl (fun acc kv => insertKey acc kv.1 kv.2) []

mutual

/-- Fueled JSON value parser modelling Python's `json.loads` scanner on the
fragment the program exchanges (no floats). Returns the value and the
unconsumed input. The fuel only bounds nesting/sequencing depth; the callers
always pass at least the input length plus one, which suffices. -/
def parseVal : Nat → List Nat → Option (Json × List Nat)
  | 0, _ => none
  | fuel + 1, s =>
    match skipWs s with
    | [] => none
    | c :: r =>
      if c = 110 then
        match r with
        | 117 :: 108 :: 108 :: r2 => some (.null, r2)
        | _ => none
      else if c = 116 then
        match r with
        | 114 :: 117 :: 101 :: r2 => some (.bool true, r2)
        | _ => none
      else if c = 102 then
        match r with
        | 97 :: 108 :: 115 :: 101 :: r2 => some (.bool false, r2)
        | _ => none
      else if c = 34 then (parseStringBody (r.length + 1) r).map (fun p => (.str p.1, p.2))
      else if c = 91 then
        let r1 := skipWs r
        if r1.headD 0 = 93 then some (.arr [], r1.tail)
        else (parseArrItems fuel r1).map (fun p => (.arr p.1, p.2))
      else if c = 123 then
        let r1 := skipWs r
        if r1.headD 0 = 125 then some (.obj [], r1.tail)
        else (parseObjItems fuel r1).map (fun p => (.obj (dedupPairs p.1), p.2))
      else if c = 45 then (parseNat r).map (fun p => (.num (-(p.1 : Int)), p.2))
      else (parseNat (c :: r)).map (fun p => (.num (p.1 : Int), p.2))

/-- Parses the members of a nonempty JSON array up to and including the
closing bracket. -/
def parseArrItems : Nat → List Nat → Option (List Json × List Nat)
  | 0, _ => none
  | fuel + 1, s =>
    match parseVal fuel s with
    | none => none
    | some (v, r) =>
      match skipWs r with
      | 44 :: r2 => (parseArrItems fuel r2).map (fun p => (v :: p.1, p.2))
      | 93 :: r2 => some ([v], r2)
      | _ => none

/-- Parses the members of a nonempty JSON object up to and including the
closing brace, in source order without deduplication. -/
def parseObjItems : Nat → List Nat → Option (List (List Nat × Json) × List Nat)
  | 0, _ => none
  | fuel + 1, s =>
    match skipWs s with
    | 34 :: r =>
      match parseStringBody (r.length + 1) r with
      | none => none
      | some (k, r2) =>
        match skipWs r2 with
        | 58 :: r3 =>
          match parseVal fuel r3 with
          | none => none
          | some (v, r4) =>
            match skipWs r4 with
            | 44 :: r5 => (parseObjItems fuel r5).map (fun p => ((k, v) :: p.1, p.2))
            | 125 :: r5 => some ([(k, v)], r5)
            | _ => none
        | _ => none
    | _ => none

end

/-- Python `json.loads` on decoded text: parse one value and require at most
trailing whitespace after it. -/
def pyLoads (s : List Nat) : Option Json :=
  match parseVal (s.length + 1) s with
  | some (v, rest) => if (skipWs rest).isEmpty then some v else none
  | none => none

/-- UTF-8 encoding of one Unicode scalar value. -/
def utf8EncodeChar (c : Nat) : List Nat :=
  if c < 128 then [c]
  else if c < 2048 then [192 + c / 64, 128 + c % 64]
  else if c < 65536 then [224 + c / 4096, 128 + c / 64 % 64, 128 + c % 64]
  else [240 + c / 262144, 128 + c / 4096 % 64, 128 + c / 64 % 64, 128 + c % 64]

/-- UTF-8 encoding of a string, as Python's `str.encode` on valid text. -/
def utf8Encode (s : List Nat) : List Nat := s.flatMap utf8EncodeChar

/-- Strict incremental UTF-8 decoding of up to `n` characters from a byte
stream, as Python's text-mode `read(n)`: stops after `n` characters or at a
clean end of input (returning fewer characters), and fails — Python raises
`UnicodeDecodeError` — on an invalid or truncated multi-byte sequence
(continuation-byte ranges exclude overlong forms and surrogates). -/
def utf8DecodeTake : Nat → List Nat → Option (List Nat)
  | 0, _ => some []
  | _ + 1, [] => some []
  | n + 1, b :: rest =>
    if b < 128 then (utf8DecodeTake n rest).map (fun cs => b :: cs)
    else if b < 194 then none
    else if b < 224 then
      match rest with
      | b2 :: rest2 =>
        if 128 ≤ b2 ∧ b2 < 192 then
          (utf8DecodeTake n rest2).map (fun cs => ((b - 192) * 64 + (b2 - 128)) :: cs)
        else none
      | [] => none
    else if b < 240 then
      match rest with
      | b2 :: b3 :: rest3 =>
        if (if b = 224 then 160 ≤ b2 ∧ b2 < 192
            else if b = 237 then 128 ≤ b2 ∧ b2 < 160
            else 128 ≤ b2 ∧ b2 < 192) ∧ 128 ≤ b3 ∧ b3 < 192 then
          (utf8DecodeTake n rest3).map
            (fun cs => ((b - 224) * 4096 + (b2 - 128) * 64 + (b3 - 128)) :: cs)
        else none
      | _ => none
    else if b < 245 then
      match rest with
      | b2 :: b3 :: b4 :: rest4 =>
        if (if b = 240 then 144 ≤ b2 ∧ b2 < 192
            else if b = 244 then 128 ≤ b2 ∧ b2 < 144
            else 128 ≤ b2 ∧ b2 < 192) ∧ 128 ≤ b3 ∧ b3 < 192 ∧ 128 ≤ b4 ∧ b4 < 192 then
          (utf8DecodeTake n rest4).map
            (fun cs => ((b - 240) * 262144 + (b2 - 128) * 4096 + (b3 - 128) * 64 + (b4 - 128)) :: cs)
        else none
      | _ => none
    else none

/-- Full strict UTF-8 decoding of a byte string, as Python's `bytes.decode`:
requesting as many characters as there are bytes always reaches the end. -/
def utf8DecodeAll (bytes : List Nat) : Option (List Nat) :=
  utf8DecodeTake bytes.length bytes

/-- Failure modes of `get_message`: the deliberate `EmptyMessage` signal, and
the three undeclared exceptions that propagate out of it (`struct.error` on a
short length prefix, `UnicodeDecodeError` from the text stream, and
`json.JSONDecodeError`). -/
inductive GetMsgError where
  | emptyMessage : GetMsgError
  | structError : GetMsgError
  | unicodeDecodeError : GetMsgError
  | jsonDecodeError : GetMsgError
deriving DecidableEq

/-- Little-endian packing of a 32-bit length, Python `struct.pack` with the
native format `@I` on the x86-64 host. -/
def packUI32 (n : Nat) : List Nat :=
  [n % 256, n / 256 % 256, n / 65536 % 256, n / 16777216 % 256]

/-- Little-endian unpacking of a 4-byte length prefix (`struct.unpack pat @I`). -/
def unpackUI32 : List Nat → Nat
  | [a, b, c, d] => a + 256 * b + 65536 * c + 16777216 * d
  | _ => 0

/-- Embedding of `get_message`: `stdin.buffer.read(4)` takes at most 4 bytes
(zero bytes raise `EmptyMessage`, one to three make `unpack` raise
`struct.error`); the unpacked count is then read as that many characters from
the UTF-8 text stream (`stdin.read(length)`, which returns fewer at end of
input), and the text is passed to `json.loads`. -/
def get_message (input : List Nat) : Except GetMsgError Json :=
  let raw_length := input.take 4
  if raw_length.isEmpty then .error .emptyMessage
  else if raw_length.length < 4 then .error .structError
  else
    match utf8DecodeTake (unpackUI32 raw_length) (input.drop 4) with
    | none => .error .unicodeDecodeError
    | some message =>
      match pyLoads message with
      | some v => .ok v
      | none => .error .jsonDecodeError

/-- Embedding of `send_message`: serialize with `json.dumps` (ASCII escaping),
prefix the 4-byte packed length of the serialized string (its character
count), and write the UTF-8 encoding of the string. -/
def send_message (content : Json) : List Nat :=
  packUI32 (render content).length ++ utf8Encode (render content)

/-- Failure modes of an external command invocation as seen by
`subprocess.check_output`: executable missing, or non-zero exit status. -/
inductive CmdError where
  | notFound : CmdError
  | nonZeroExit : CmdError
deriving DecidableEq

/-- Python exceptions crossing the functions under verification:
`FileNotFoundError`, `subprocess.CalledProcessError`, `UnicodeDecodeError`
from decoding command output, and `TypeError` from subscripting a non-dict. -/
inductive PyError where
  | fileNotFound : PyError
  | calledProcessError : PyError
  | unicodeDecodeError : PyError
  | typeError : PyError
deriving DecidableEq

/-- The external collaborators: `pidof` keyed by process name and
`wmctrl -lp`, each producing raw stdout bytes or failing. -/
structure Env where
  pidof : List Nat → Except CmdError (List Nat)
  wmctrl : Except CmdError (List Nat)

/-- Runs one external command and decodes its output as UTF-8, with the
errors `check_output(...).decode()` can raise. -/
def runCmd : Except CmdError (List Nat) → Except PyError (List Nat)
  | .error .notFound => .error .fileNotFound
  | .error .nonZeroExit => .error .calledProcessError
  | .ok bytes =>
    match utf8DecodeAll bytes with
    | none => .error .unicodeDecodeError
    | some text => .ok text

/-- Python's `str.split()` with no separator: split on runs of Unicode
whitespace, producing no empty tokens. -/
def isPySpace (c : Nat) : Bool :=
  decide (c = 32 ∨ (9 ≤ c ∧ c ≤ 13) ∨ (28 ≤ c ∧ c ≤ 31) ∨ c = 133 ∨ c = 160 ∨ c = 5760 ∨
    (8192 ≤ c ∧ c ≤ 8202) ∨ c = 8232 ∨ c = 8233 ∨ c = 8239 ∨ c = 8287 ∨ c = 12288)

/-- Helper bound: dropping a prefix never lengthens a list. -/
theorem dropWhile_length_le {α : Type} (p : α → Bool) (l : List α) :
    (l.dropWhile p).length ≤ l.length := by
  induction l with
  | nil => simp
  | cons a l ih => rw [List.dropWhile_cons]; split <;> simp <;> omega

/-- Whitespace-run splitting loop; every step consumes at least one
character, so the structural fuel is never exhausted by the caller below. -/
def pySplitWsGo : Nat → List Nat → List (List Nat)
  | 0, _ => []
  | _ + 1, [] => []
  | fuel + 1, c :: r =>
    if isPySpace c then pySplitWsGo fuel r
    else (c :: r.takeWhile (fun x => !isPySpace x)) ::
      pySplitWsGo fuel (r.dropWhile (fun x => !isPySpace x))

/-- Whitespace-run splitting (`str.split()` with no argument). -/
def pySplitWs (l : List Nat) : List (List Nat) := pySplitWsGo (l.length + 1) l

/-- Single-character separator splitting (`str.split(sep)` with the one-byte
`os.linesep` of the host), keeping empty pieces. -/
def splitSep (sep : Nat) : List Nat → List (List Nat)
  | [] => [[]]
  | c :: r =>
    if c = sep then [] :: splitSep sep r
    else
      match splitSep sep r with
      | l :: ls => (c :: l) :: ls
      | [] => [[c]]

/-- Python `str.join` with a single-space separator. -/
def spaceJoin : List (List Nat) → List Nat
  | [] => []
  | [x] => x
  | x :: xs => x ++ 32 :: spaceJoin xs

/-- Numeric value of one ASCII digit in the given base (10 or 16), as
accepted by Python's `int`. -/
def digitVal (base : Nat) (c : Nat) : Option Nat :=
  if 48 ≤ c ∧ c ≤ 57 ∧ c - 48 < base then some (c - 48)
  else if base = 16 ∧ 97 ≤ c ∧ c ≤ 102 then some (c - 87)
  else if base = 16 ∧ 65 ≤ c ∧ c ≤ 70 then some (c - 55)
  else none

/-- Digit-run accumulator for Python `int`, allowing a single underscore
between digits (never leading, trailing, or doubled). -/
def digitsUndGo (base acc : Nat) : List Nat → Option Nat
  | [] => some acc
  | 95 :: c :: r =>
    match digitVal base c with
    | some d => digitsUndGo base (acc * base + d) r
    | none => none
  | [95] => none
  | c :: r =>
    match digitVal base c with
    | some d => digitsUndGo base (acc * base + d) r
    | none => none

/-- Nonempty digit run for Python `int`: the first character must be a digit. -/
def digitsUnd (base : Nat) : List Nat → Option Nat
  | [] => none
  | c :: r =>
    match digitVal base c with
    | some d => digitsUndGo base d r
    | none => none

/-- Unsigned part of Python `int(string, base)`: for base 16 an optional
`0x`/`0X` prefix (which may be followed by one underscore) is stripped.
Non-ASCII digits are outside this model. -/
def pyIntMag (base : Nat) (l : List Nat) : Option Nat :=
  if base = 16 then
    match l with
    | 48 :: 120 :: 95 :: r => digitsUnd 16 r
    | 48 :: 120 :: r => digitsUnd 16 r
    | 48 :: 88 :: 95 :: r => digitsUnd 16 r
    | 48 :: 88 :: r => digitsUnd 16 r
    | _ => digitsUnd 16 l
  else digitsUnd base l

/-- Python `int(token, base)` on a whitespace-free token: optional sign, then
the unsigned magnitude; `none` models `ValueError`. -/
def pyInt (base : Nat) : List Nat → Option Int
  | 43 :: r => (pyIntMag base r).map Int.ofNat
  | 45 :: r => (pyIntMag base r).map (fun n => -(n : Int))
  | l => (pyIntMag base l).map Int.ofNat

/-- The `Window` named tuple: one parsed line of `wmctrl -lp` output. -/
structure Window where
  id : Int
  desktop : Int
  pid : Int
  machine : List Nat
  title : List Nat
deriving DecidableEq

/-- Embedding of `window_from_string`: split the line on whitespace runs,
unpack the first four tokens as hexadecimal id, decimal desktop, decimal pid
and machine name, and join the remaining tokens with single spaces as the
title; `none` models the `ValueError` raised by too few tokens or a failed
`int` conversion. -/
def window_from_string (string : List Nat) : Option Window :=
  match pySplitWs string with
  | id0 :: desktop :: pid :: machine :: title =>
    match pyInt 16 id0, pyInt 10 desktop, pyInt 10 pid with
    | some i, some d, some p => some ⟨i, d, p, machine, spaceJoin title⟩
    | _, _, _ => none
  | _ => none

/-- The per-line loop of `get_windows`: drop empty lines (`filter(None, ...)`)
and silently skip lines whose parse raises (`suppress(TypeError, ValueError)`). -/
def windowsOfLines (lines : List (List Nat)) : List Window :=
  (lines.filter (fun l => !l.isEmpty)).filterMap window_from_string

/-- Embedding of `get_windows`: run `wmctrl -lp`, decode its output, split on
`os.linesep` and parse each line. -/
def get_windows (env : Env) : Except PyError (List Window) := do
  let text ← runCmd env.wmctrl
  pure (windowsOfLines (splitSep 10 text))

/-- Embedding of `get_pids`: run `pidof name`, decode its output, split on
whitespace and keep the tokens that parse as decimal integers
(`suppress(ValueError)`). -/
def get_pids (env : Env) (proc_name : List Nat) : Except PyError (List Int) := do
  let text ← runCmd (env.pidof proc_name)
  pure ((pySplitWs text).filterMap (pyInt 10))

/-- Embedding of `windows_by_procname`: materialize the PID list first (as
`tuple(get_pids(...))` does), then keep the windows owned by one of them. -/
def windows_by_procname (env : Env) (proc_name : List Nat) : Except PyError (List Window) := do
  let pids ← get_pids env proc_name
  let ws ← get_windows env
  pure (ws.filter (fun w => pids.contains w.pid))

/-- The `WhenToHideTitleBar` enumeration of the source. -/
inductive WhenToHideTitleBar where
  | ALWAYS : WhenToHideTitleBar
  | MAX_ONLY : WhenToHideTitleBar
  | NEVER : WhenToHideTitleBar
  | UNKNOWN : WhenToHideTitleBar
deriving DecidableEq

/-- The two Gdk decoration constants the program passes to
`Gdk.Window.set_decorations`; the absent decoration is `Option.none`. -/
inductive Decoration where
  | border : Decoration
  | all : Decoration
deriving DecidableEq

/-- The `whenToHideTitleBar` field name. -/
def keyWTH : List Nat := s2c "whenToHideTitleBar"

/-- The enumeration-matching loop of `WhenToHideTitleBar.from_message`:
Python `==` between the decoded field value and each member's value
(`always`, `maxonly`, `never`, `None`), defaulting to `UNKNOWN`. -/
def matchPref : Json → WhenToHideTitleBar
  | .str s =>
    if s = s2c "always" then .ALWAYS
    else if s = s2c "maxonly" then .MAX_ONLY
    else if s = s2c "never" then .NEVER
    else .UNKNOWN
  | _ => .UNKNOWN

/-- Embedding of `WhenToHideTitleBar.from_message`: subscripting the decoded
message catches only `KeyError` (absent key on a dict), so a non-object
message raises `TypeError`, which nothing catches. -/
def from_message : Json → Except PyError WhenToHideTitleBar
  | .obj fields =>
    match List.lookup keyWTH fields with
    | none => .ok .UNKNOWN
    | some v => .ok (matchPref v)
  | _ => .error .typeError

/-- The decoration chosen by the `if`-chain of `hide_title_bar`. -/
def policy_decoration : WhenToHideTitleBar → Option Decoration
  | .ALWAYS => some .border
  | .MAX_ONLY => none
  | .NEVER => some .all
  | .UNKNOWN => none

/-- The `result` tri-state set by the `if`-chain of `hide_title_bar`
(`None` for `UNKNOWN`). -/
def policy_result : WhenToHideTitleBar → Option Bool
  | .ALWAYS => some true
  | .MAX_ONLY => some false
  | .NEVER => some true
  | .UNKNOWN => none

/-- Embedding of `decorate_windows`: with no decoration requested it does
nothing; otherwise it enumerates the target's windows (running both external
commands) and applies the decoration to each through Gdk, which is opaque
here and contributes no failure. -/
def decorate_windows (env : Env) (proc_name : List Nat) :
    Option Decoration → Except PyError Unit
  | none => .ok ()
  | some _ => (windows_by_procname env proc_name).map (fun _ => ())

/-- Embedding of `hide_title_bar` in the shipped single-shot configuration
(`CONTINUOUS = False`): choose decoration and result from the preference,
decorate, and return the result. -/
def hide_title_bar (env : Env) (proc_name : List Nat) (w : WhenToHideTitleBar) :
    Except PyError (Option Bool) :=
  (decorate_windows env proc_name (policy_decoration w)).map (fun _ => policy_result w)

/-- The reply object built by `main` from the result of `hide_title_bar`. -/
def reply_of_result : Option Bool → Json
  | none => .obj [(s2c "knownFailure", .str (s2c "UNKNOWN_WHEN_TO_HIDE"))]
  | some true => .obj [(s2c "okay", .bool true)]
  | some false => .obj [(s2c "knownFailure", .str (s2c "MAX_ONLY_UNSUPPORTED"))]

/-- The reply constant for a success. -/
def replyOkay : Json := .obj [(s2c "okay", .bool true)]

/-- The reply constant for an unknown preference. -/
def replyUnknown : Json := .obj [(s2c "knownFailure", .str (s2c "UNKNOWN_WHEN_TO_HIDE"))]

/-- The reply constant for the unsupported `maxonly` preference. -/
def replyMaxOnly : Json := .obj [(s2c "knownFailure", .str (s2c "MAX_ONLY_UNSUPPORTED"))]

/-- The hard-coded target process name. -/
def PROC_NAME : List Nat := s2c "firefox"

/-- Exit status of the process when the given exception escapes the
`hide_title_bar` call in `main`: the three `except` clauses call `exit(1)`,
`exit(2)`, `exit(3)`, and an uncaught exception makes the interpreter exit
with status 1. -/
def pyExitCode : PyError → Nat
  | .fileNotFound => 1
  | .calledProcessError => 2
  | .unicodeDecodeError => 3
  | .typeError => 1

/-- Observable outcome of one helper invocation: process exit status and the
bytes written to standard output. -/
structure RunResult where
  exitCode : Nat
  output : List Nat
deriving DecidableEq

/-- Embedding of `main`: read one message (`EmptyMessage` exits 0 with no
reply; the undeclared decode exceptions kill the interpreter with status 1),
derive the preference (a `TypeError` on a non-dict message is uncaught),
run `hide_title_bar` with the configured process name (mapping its three
caught exceptions to `exit(1..3)`), then build and send the single reply and
finish with status 0. -/
def mainRun (input : List Nat) (env : Env) : RunResult :=
  match get_message input with
  | .error .emptyMessage => ⟨0, []⟩
  | .error _ => ⟨1, []⟩
  | .ok message =>
    match from_message message with
    | .error _ => ⟨1, []⟩
    | .ok w =>
      match hide_title_bar env PROC_NAME w with
      | .error e => ⟨pyExitCode e, []⟩
      | .ok result => ⟨0, send_message (reply_of_result result)⟩



/-- Positivity of the size measure. -/
theorem jsize_pos (v : Json) : 1 ≤ jsize v := by
  cases v with
  | arr xs => cases xs <;> simp [jsize] <;> omega
  | obj kvs => cases kvs <;> simp [jsize] <;> omega
  | _ => simp [jsize]

/-- Skipping whitespace leaves a list with a non-whitespace head unchanged. -/
theorem skipWs_cons_false (c : Nat) (t : List Nat) (h : isWs c = false) :
    skipWs (c :: t) = c :: t := by
  simp [skipWs, List.dropWhile_cons, h]

/-- Skipping whitespace drops a whitespace head. -/
theorem skipWs_cons_true (c : Nat) (t : List Nat) (h : isWs c = true) :
    skipWs (c :: t) = skipWs t := by
  simp [skipWs, List.dropWhile_cons, h]

/-- Shape of the decimal digit list: nonempty with a digit head. -/
theorem natDigits_shape (n : Nat) : ∃ c t, natDigits n = c :: t ∧ 48 ≤ c ∧ c ≤ 57 := by
  induction n using Nat.strong_induction_on with
  | _ n ih =>
    rw [natDigits_unfold]
    by_cases h : n < 10
    · exact ⟨48 + n, [], by simp [h], by omega, by omega⟩
    · obtain ⟨c, t, hct, h1, h2⟩ := ih (n / 10) (Nat.div_lt_self (by omega) (by omega))
      exact ⟨c, t ++ [48 + n % 10], by simp [h, hct], h1, h2⟩

/-- Shape of the decimal digit list of a positive number: the leading digit
is nonzero. -/
theorem natDigits_head_pos (n : Nat) (hn : 1 ≤ n) :
    ∃ c t, natDigits n = c :: t ∧ 49 ≤ c ∧ c ≤ 57 := by
  induction n using Nat.strong_induction_on with
  | _ n ih =>
    rw [natDigits_unfold]
    by_cases h : n < 10
    · exact ⟨48 + n, [], by simp [h], by omega, by omega⟩
    · obtain ⟨c, t, hct, h1, h2⟩ :=
        ih (n / 10) (Nat.div_lt_self (by omega) (by omega)) (by omega)
      exact ⟨c, t ++ [48 + n % 10], by simp [h, hct], h1, h2⟩

/-- Every rendered value starts with a non-whitespace character that is not a
closing bracket or brace. -/
theorem renderHead (v : Json) :
    ∃ c t, render v = c :: t ∧ isWs c = false ∧ c ≠ 93 ∧ c ≠ 125 := by
  cases v with
  | null => exact ⟨110, [117, 108, 108], by simp [render], by decide, by decide, by decide⟩
  | bool b =>
    cases b with
    | false => exact ⟨102, [97, 108, 115, 101], by simp [render], by decide, by decide, by decide⟩
    | true => exact ⟨116, [114, 117, 101], by simp [render], by decide, by decide, by decide⟩
  | num i =>
    by_cases h : i < 0
    · exact ⟨45, natDigits i.natAbs, by simp [render, renderInt, h], by decide, by decide,
        by decide⟩
    · obtain ⟨c, t, hct, h1, h2⟩ := natDigits_shape i.natAbs
      refine ⟨c, t, by simp [render, renderInt, h, hct], ?_, by omega, by omega⟩
      simp [isWs]; omega
  | str s => exact ⟨34, escapeStr s ++ [34], by simp [render], by decide, by decide, by decide⟩
  | arr xs =>
    cases xs with
    | nil => exact ⟨91, [93], by simp [render], by decide, by decide, by decide⟩
    | cons x xs =>
      exact ⟨91, renderItems x xs ++ [93], by simp [render_arr_cons], by decide, by decide, by decide⟩
  | obj kvs =>
    cases kvs with
    | nil => exact ⟨123, [125], by simp [render], by decide, by decide, by decide⟩
    | cons kv kvs =>
      obtain ⟨k, v⟩ := kv
      exact ⟨123, renderFields k v kvs ++ [125], by simp [render_obj_cons], by decide, by decide,
        by decide⟩

/-- The head of the input is not a decimal digit (true for an empty input). -/
def noDigitStart : List Nat → Prop
  | [] => True
  | c :: _ => ¬(48 ≤ c ∧ c ≤ 57)

/-- The digit scanner stops immediately on a non-digit head. -/
theorem takeDigitsAcc_stop (a : Nat) (rest : List Nat) (h : noDigitStart rest) :
    takeDigitsAcc a rest = (a, rest) := by
  cases rest with
  | nil => rfl
  | cons c r =>
    rw [takeDigitsAcc, if_neg h]

/-- The digit scanner consumes a whole rendered number, accumulating its
value positionally. -/
theorem takeDigitsAcc_natDigits (n : Nat) :
    ∀ a rest, takeDigitsAcc a (natDigits n ++ rest) =
      takeDigitsAcc (a * 10 ^ (natDigits n).length + n) rest := by
  induction n using Nat.strong_induction_on with
  | _ n ih =>
    intro a rest
    rw [natDigits_unfold]
    by_cases h : n < 10
    · rw [if_pos h]
      rw [List.cons_append, List.nil_append, takeDigitsAcc, if_pos (by omega)]
      have h1 : a * 10 + (48 + n - 48) = a * 10 ^ ([48 + n].length) + n := by
        simp
      rw [h1]
    · rw [if_neg h]
      rw [List.append_assoc, ih (n / 10) (Nat.div_lt_self (by omega) (by omega)) a]
      rw [List.cons_append, List.nil_append, takeDigitsAcc, if_pos (by omega)]
      have h2 : (a * 10 ^ (natDigits (n / 10)).length + n / 10) * 10 + (48 + n % 10 - 48) =
          a * 10 ^ ((natDigits (n / 10) ++ [48 + n % 10]).length) + n := by
        simp [List.length_append, pow_succ]
        ring_nf
        omega
      rw [h2]

/-- The JSON number scanner reads back exactly a rendered natural number. -/
theorem parseNat_natDigits (n : Nat) (rest : List Nat) (h : noDigitStart rest) :
    parseNat (natDigits n ++ rest) = some (n, rest) := by
  rcases Nat.lt_or_ge n 10 with h10 | h10
  · have hd : natDigits n = [48 + n] := by rw [natDigits_unfold, if_pos h10]
    rcases Nat.eq_zero_or_pos n with h0 | h0
    · subst h0
      rw [hd, List.cons_append, List.nil_append, parseNat, if_pos (by omega)]
    · rw [hd, List.cons_append, List.nil_append, parseNat,
        if_neg (by omega), if_pos (by omega)]
      rw [show 48 + n - 48 = n from by omega, takeDigitsAcc_stop n rest h]
  · obtain ⟨c, t, hct, h1, h2⟩ := natDigits_head_pos n (by omega)
    have key : takeDigitsAcc (c - 48) (t ++ rest) = (n, rest) := by
      have e1 : takeDigitsAcc 0 (natDigits n ++ rest) = (n, rest) := by
        rw [takeDigitsAcc_natDigits n 0 rest]
        simpa using takeDigitsAcc_stop n rest h
      have e2 : takeDigitsAcc 0 (natDigits n ++ rest) = takeDigitsAcc (c - 48) (t ++ rest) := by
        rw [hct, List.cons_append, takeDigitsAcc, if_pos (by omega)]
        rw [show 0 * 10 + (c - 48) = c - 48 from by omega]
      rw [← e2, e1]
    rw [hct, List.cons_append, parseNat, if_neg (by omega), if_pos (by omega), key]

/-- Parsing the hexadecimal digit character of a value below 16 recovers it. -/
theorem parseHexDigit_hexChar (d : Nat) (h : d < 16) : parseHexDigit (hexChar d) = some d := by
  unfold hexChar parseHexDigit
  by_cases h10 : d < 10
  · rw [if_pos h10, if_pos (by omega)]
    simp only [Option.some.injEq]; omega
  · rw [if_neg h10, if_neg (by omega), if_pos (by omega)]
    simp only [Option.some.injEq]; omega

/-- Parsing the four hexadecimal digits of a code unit recovers it. -/
theorem parseHex4_hex4 (c : Nat) (h : c < 65536) :
    parseHex4 (hexChar (c / 4096 % 16)) (hexChar (c / 256 % 16))
      (hexChar (c / 16 % 16)) (hexChar (c % 16)) = some c := by
  rw [parseHex4, parseHexDigit_hexChar _ (by omega), parseHexDigit_hexChar _ (by omega),
    parseHexDigit_hexChar _ (by omega), parseHexDigit_hexChar _ (by omega)]
  simp only [Option.some.injEq]
  omega


/-- One-step unfolding of the string scanner on a `\\uXXXX` escape,
definitional because the scanner is structural in its fuel. -/
theorem parseStringBody_u (f : Nat) (h1 h2 h3 h4 : Nat) (r6 : List Nat) :
    parseStringBody (f + 1) (92 :: 117 :: h1 :: h2 :: h3 :: h4 :: r6) =
      match parseHex4 h1 h2 h3 h4 with
      | none => none
      | some cp1 =>
        if 55296 ≤ cp1 ∧ cp1 ≤ 56319 then
          match r6 with
          | 92 :: 117 :: g1 :: g2 :: g3 :: g4 :: r12 =>
            match parseHex4 g1 g2 g3 g4 with
            | none => none
            | some cp2 =>
              if 56320 ≤ cp2 ∧ cp2 ≤ 57343 then
                (parseStringBody f r12).map
                  (fun p => ((65536 + (cp1 - 55296) * 1024 + (cp2 - 56320)) :: p.1, p.2))
              else
                (parseStringBody f (92 :: 117 :: g1 :: g2 :: g3 :: g4 :: r12)).map
                  (fun p => (cp1 :: p.1, p.2))
          | 92 :: 117 :: _ => none
          | _ => (parseStringBody f r6).map (fun p => (cp1 :: p.1, p.2))
        else (parseStringBody f r6).map (fun p => (cp1 :: p.1, p.2)) := rfl

/-- The string scanner on a non-surrogate `\\uXXXX` escape emits its code
point and continues. -/
theorem parseStringBody_uescape (f h1 h2 h3 h4 cp1 : Nat) (r6 : List Nat)
    (hx : parseHex4 h1 h2 h3 h4 = some cp1) (hns : ¬(55296 ≤ cp1 ∧ cp1 ≤ 56319)) :
    parseStringBody (f + 1) (92 :: 117 :: h1 :: h2 :: h3 :: h4 :: r6) =
      (parseStringBody f r6).map (fun p => (cp1 :: p.1, p.2)) := by
  rw [parseStringBody_u, hx]
  simp only []
  rw [if_neg hns]

/-- The string scanner on an escaped surrogate pair emits the combined code
point and continues after the pair. -/
theorem parseStringBody_upair (f h1 h2 h3 h4 g1 g2 g3 g4 cp1 cp2 : Nat) (r12 : List Nat)
    (hx1 : parseHex4 h1 h2 h3 h4 = some cp1) (hhi : 55296 ≤ cp1 ∧ cp1 ≤ 56319)
    (hx2 : parseHex4 g1 g2 g3 g4 = some cp2) (hlo : 56320 ≤ cp2 ∧ cp2 ≤ 57343) :
    parseStringBody (f + 1)
        (92 :: 117 :: h1 :: h2 :: h3 :: h4 :: 92 :: 117 :: g1 :: g2 :: g3 :: g4 :: r12) =
      (parseStringBody f r12).map
        (fun p => ((65536 + (cp1 - 55296) * 1024 + (cp2 - 56320)) :: p.1, p.2)) := by
  rw [parseStringBody_u, hx1]
  simp only []
  rw [if_pos hhi]
  try simp only []
  rw [hx2]
  try simp only []
  rw [if_pos hlo]

/-- Parsing one escaped character of `json.dumps` output prepends exactly that
character, for every Unicode scalar value. -/
theorem parseStringBody_escapeChar (f : Nat) (c : Nat) (h1 : c < 1114112)
    (h2 : ¬(55296 ≤ c ∧ c ≤ 57343)) (t : List Nat) :
    parseStringBody (f + 1) (escapeChar c ++ t) =
      (parseStringBody f t).map (fun p => (c :: p.1, p.2)) := by
  by_cases hc34 : c = 34
  · subst hc34; rfl
  by_cases hc92 : c = 92
  · subst hc92; rfl
  by_cases hc8 : c = 8
  · subst hc8; rfl
  by_cases hc9 : c = 9
  · subst hc9; rfl
  by_cases hc10 : c = 10
  · subst hc10; rfl
  by_cases hc12 : c = 12
  · subst hc12; rfl
  by_cases hc13 : c = 13
  · subst hc13; rfl
  by_cases hlit : 32 ≤ c ∧ c ≤ 126
  · have he : escapeChar c = [c] := by
      unfold escapeChar
      rw [if_neg hc34, if_neg hc92, if_neg hc8, if_neg hc9, if_neg hc10, if_neg hc12,
        if_neg hc13, if_neg (by omega)]
    rw [he, List.cons_append, List.nil_append, parseStringBody.eq_def]
    simp only []
    rw [if_neg hc34, if_neg hc92, if_neg (by omega : ¬ c < 32)]
  · by_cases hbmp : c < 65536
    · have he : escapeChar c ++ t =
          92 :: 117 :: hexChar (c / 4096 % 16) :: hexChar (c / 256 % 16) ::
            hexChar (c / 16 % 16) :: hexChar (c % 16) :: t := by
        unfold escapeChar hex4
        rw [if_neg hc34, if_neg hc92, if_neg hc8, if_neg hc9, if_neg hc10, if_neg hc12,
          if_neg hc13, if_pos (by omega), if_pos hbmp]
        simp
      rw [he, parseStringBody_uescape f _ _ _ _ c t (parseHex4_hex4 c hbmp) (by omega)]
    · have hhi : 55296 + (c - 65536) / 1024 < 65536 := by omega
      have hlo : 56320 + (c - 65536) % 1024 < 65536 := by
        have := Nat.mod_lt (c - 65536) (show 0 < 1024 from by omega)
        omega
      have he : escapeChar c ++ t =
          92 :: 117 :: hexChar ((55296 + (c - 65536) / 1024) / 4096 % 16) ::
            hexChar ((55296 + (c - 65536) / 1024) / 256 % 16) ::
            hexChar ((55296 + (c - 65536) / 1024) / 16 % 16) ::
            hexChar ((55296 + (c - 65536) / 1024) % 16) ::
            92 :: 117 :: hexChar ((56320 + (c - 65536) % 1024) / 4096 % 16) ::
            hexChar ((56320 + (c - 65536) % 1024) / 256 % 16) ::
            hexChar ((56320 + (c - 65536) % 1024) / 16 % 16) ::
            hexChar ((56320 + (c - 65536) % 1024) % 16) :: t := by
        unfold escapeChar hex4
        rw [if_neg hc34, if_neg hc92, if_neg hc8, if_neg hc9, if_neg hc10, if_neg hc12,
          if_neg hc13, if_pos (by omega), if_neg (by omega)]
        simp
      have hhir : 55296 ≤ 55296 + (c - 65536) / 1024 ∧ 55296 + (c - 65536) / 1024 ≤ 56319 := by
        have : (c - 65536) / 1024 < 1024 := by
          apply Nat.div_lt_of_lt_mul; omega
        omega
      have hlor : 56320 ≤ 56320 + (c - 65536) % 1024 ∧ 56320 + (c - 65536) % 1024 ≤ 57343 := by
        have := Nat.mod_lt (c - 65536) (show 0 < 1024 from by omega)
        omega
      rw [he, parseStringBody_upair f _ _ _ _ _ _ _ _ _ _ t
        (parseHex4_hex4 (55296 + (c - 65536) / 1024) hhi) hhir
        (parseHex4_hex4 (56320 + (c - 65536) % 1024) hlo) hlor]
      simp only [Nat.add_sub_cancel_left]
      have hc2 : 65536 + (c - 65536) / 1024 * 1024 + (c - 65536) % 1024 = c := by
        have := Nat.div_add_mod (c - 65536) 1024
        omega
      simp only [hc2]

/-- Escaping produces at least one character per character. -/
theorem escapeChar_length_pos (c : Nat) : 1 ≤ (escapeChar c).length := by
  unfold escapeChar
  repeat' split
  all_goals simp [hex4]

/-- Escaping never shortens a string. -/
theorem escapeStr_length_ge (s : List Nat) : s.length ≤ (escapeStr s).length := by
  induction s with
  | nil => simp [escapeStr]
  | cons c s ih =>
    have h1 := escapeChar_length_pos c
    simp only [escapeStr, List.flatMap_cons, List.length_append, List.length_cons] at ih ⊢
    omega

/-- The string scanner reads back an escaped string up to its closing quote,
with any fuel beyond the string's length. -/
theorem parseStringBody_escapeStr (s : List Nat) (t : List Nat) (f : Nat)
    (hv : validStr s = true) (hf : s.length + 1 ≤ f) :
    parseStringBody f (escapeStr s ++ 34 :: t) = some (s, t) := by
  induction s generalizing f with
  | nil =>
    obtain ⟨g, rfl⟩ : ∃ g, f = g + 1 := ⟨f - 1, by omega⟩
    simp only [escapeStr, List.flatMap_nil, List.nil_append]
    rfl
  | cons c s ih =>
    obtain ⟨g, rfl⟩ : ∃ g, f = g + 1 := ⟨f - 1, by omega⟩
    rw [validStr, List.all_cons, Bool.and_eq_true] at hv
    have hc := of_decide_eq_true hv.1
    rw [show escapeStr (c :: s) = escapeChar c ++ escapeStr s from by simp [escapeStr],
      List.append_assoc, parseStringBody_escapeChar g c hc.1 hc.2,
      ih g hv.2 (by simp at hf; omega)]
    rfl

/-- A leading space does not change a value parse. -/
theorem parseVal_ws (f : Nat) (s : List Nat) : parseVal f (32 :: s) = parseVal f s := by
  cases f with
  | zero => rfl
  | succ f =>
    conv_lhs => rw [parseVal.eq_def]
    conv_rhs => rw [parseVal.eq_def]
    simp only []
    rw [skipWs_cons_true 32 s (by decide)]

/-- A leading space does not change an array-members parse. -/
theorem parseArrItems_ws (f : Nat) (s : List Nat) :
    parseArrItems f (32 :: s) = parseArrItems f s := by
  cases f with
  | zero => rfl
  | succ f =>
    conv_lhs => rw [parseArrItems.eq_def]
    conv_rhs => rw [parseArrItems.eq_def]
    simp only []
    rw [parseVal_ws]

/-- A leading space does not change an object-members parse. -/
theorem parseObjItems_ws (f : Nat) (s : List Nat) :
    parseObjItems f (32 :: s) = parseObjItems f s := by
  cases f with
  | zero => rfl
  | succ f =>
    conv_lhs => rw [parseObjItems.eq_def]
    conv_rhs => rw [parseObjItems.eq_def]
    simp only []
    rw [skipWs_cons_true 32 s (by decide)]

/-- Inserting a fresh key into a Python `dict` appends it. -/
theorem insertKey_fresh (acc : List (List Nat × Json)) (k : List Nat) (v : Json)
    (h : ∀ kv ∈ acc, kv.1 ≠ k) : insertKey acc k v = acc ++ [(k, v)] := by
  induction acc with
  | nil => rfl
  | cons kv acc ih =>
    obtain ⟨k1, v1⟩ := kv
    rw [insertKey, if_neg (h (k1, v1) (by simp))]
    rw [ih (fun kv h2 => h kv (by simp [h2]))]
    simp

/-- Folding duplicate-free members into an empty `dict` preserves them. -/
theorem dedup_go (l : List (List Nat × Json)) :
    ∀ acc, keysNodupB l = true → (∀ kv ∈ acc, ∀ kv2 ∈ l, kv.1 ≠ kv2.1) →
      l.foldl (fun a kv => insertKey a kv.1 kv.2) acc = acc ++ l := by
  induction l with
  | nil => intro acc _ _; simp
  | cons kv l ih =>
    intro acc h hdisj
    obtain ⟨k, v⟩ := kv
    rw [keysNodupB, Bool.and_eq_true] at h
    have hfresh : ∀ kv2 ∈ l, kv2.1 ≠ k := by
      intro kv2 hm
      have := h.1
      simp only [Bool.not_eq_eq_eq_not, Bool.not_true, List.any_eq_false] at this
      simpa using this kv2 hm
    rw [List.foldl_cons]
    rw [show insertKey acc k v = acc ++ [(k, v)] from
      insertKey_fresh acc k v (fun kv2 h2 => hdisj kv2 h2 (k, v) (by simp))]
    rw [ih (acc ++ [(k, v)]) h.2 ?_]
    · simp
    · intro kv2 hm2 kv3 hm3
      rcases List.mem_append.mp hm2 with hma | hmb
      · exact hdisj kv2 hma kv3 (by simp [hm3])
      · have : kv2 = (k, v) := by simpa using hmb
        subst this
        exact (hfresh kv3 hm3).symm

/-- Building the `dict` from duplicate-free parsed members keeps them as is. -/
theorem dedupPairs_nodup (l : List (List Nat × Json)) (h : keysNodupB l = true) :
    dedupPairs l = l := by
  rw [dedupPairs, dedup_go l [] h (by simp)]
  simp

/-- One-step unfolding of the value parser on a rendered `null`. -/
theorem parseVal_null (f : Nat) (r : List Nat) :
    parseVal (f + 1) (110 :: 117 :: 108 :: 108 :: r) = some (.null, r) := rfl

/-- One-step unfolding of the value parser on a rendered `true`. -/
theorem parseVal_true (f : Nat) (r : List Nat) :
    parseVal (f + 1) (116 :: 114 :: 117 :: 101 :: r) = some (.bool true, r) := rfl

/-- One-step unfolding of the value parser on a rendered `false`. -/
theorem parseVal_false (f : Nat) (r : List Nat) :
    parseVal (f + 1) (102 :: 97 :: 108 :: 115 :: 101 :: r) = some (.bool false, r) := rfl

/-- One-step unfolding of the value parser on an opening quote. -/
theorem parseVal_quote (f : Nat) (r : List Nat) :
    parseVal (f + 1) (34 :: r) =
      (parseStringBody (r.length + 1) r).map (fun p => (.str p.1, p.2)) := rfl

/-- One-step unfolding of the value parser on a minus sign. -/
theorem parseVal_minus (f : Nat) (r : List Nat) :
    parseVal (f + 1) (45 :: r) =
      (parseNat r).map (fun p => (.num (-(p.1 : Int)), p.2)) := rfl

/-- One-step unfolding of the value parser on an opening bracket. -/
theorem parseVal_lbracket (f : Nat) (r : List Nat) :
    parseVal (f + 1) (91 :: r) =
      (if (skipWs r).headD 0 = 93 then some (.arr [], (skipWs r).tail)
       else (parseArrItems f (skipWs r)).map (fun p => (.arr p.1, p.2))) := rfl

/-- One-step unfolding of the value parser on an opening brace. -/
theorem parseVal_lbrace (f : Nat) (r : List Nat) :
    parseVal (f + 1) (123 :: r) =
      (if (skipWs r).headD 0 = 125 then some (.obj [], (skipWs r).tail)
       else (parseObjItems f (skipWs r)).map (fun p => (.obj (dedupPairs p.1), p.2))) := rfl

/-- One-step unfolding of the value parser on a leading digit. -/
theorem parseVal_digit (f c : Nat) (r : List Nat) (h : 48 ≤ c ∧ c ≤ 57) :
    parseVal (f + 1) (c :: r) =
      (parseNat (c :: r)).map (fun p => (.num (p.1 : Int), p.2)) := by
  rw [parseVal.eq_def]
  simp only []
  rw [skipWs_cons_false c r (by simp [isWs]; omega)]
  simp only []
  rw [if_neg (by omega), if_neg (by omega), if_neg (by omega), if_neg (by omega),
    if_neg (by omega), if_neg (by omega), if_neg (by omega)]

/-- One-step unfolding of the array-members parser. -/
theorem parseArrItems_succ (f : Nat) (s : List Nat) :
    parseArrItems (f + 1) s =
      (match parseVal f s with
       | none => none
       | some (v, r) =>
         match skipWs r with
         | 44 :: r2 => (parseArrItems f r2).map (fun p => (v :: p.1, p.2))
         | 93 :: r2 => some ([v], r2)
         | _ => none) := rfl

/-- One-step unfolding of the object-members parser. -/
theorem parseObjItems_succ (f : Nat) (s : List Nat) :
    parseObjItems (f + 1) s =
      (match skipWs s with
       | 34 :: r =>
         match parseStringBody (r.length + 1) r with
         | none => none
         | some (k, r2) =>
           match skipWs r2 with
           | 58 :: r3 =>
             match parseVal f r3 with
             | none => none
             | some (v, r4) =>
               match skipWs r4 with
               | 44 :: r5 => (parseObjItems f r5).map (fun p => ((k, v) :: p.1, p.2))
               | 125 :: r5 => some ([(k, v)], r5)
               | _ => none
           | _ => none
       | _ => none) := rfl

/-- Characters allowed to follow a complete rendered value: nothing, or a
separator, or a closing bracket or brace. -/
def restOk : List Nat → Prop
  | [] => True
  | c :: _ => c = 44 ∨ c = 93 ∨ c = 125

/-- A value-terminating character is not a digit. -/
theorem restOk_noDigit (rest : List Nat) (h : restOk rest) : noDigitStart rest := by
  cases rest with
  | nil => trivial
  | cons c t =>
    rcases h with h | h | h <;> subst h <;> simp [noDigitStart]

/-- A rendered member list starts with the head of its first element. -/
theorem renderItems_head (x : Json) (xs : List Json) (c0 : Nat) (t0 : List Nat)
    (h : render x = c0 :: t0) : ∃ t, renderItems x xs = c0 :: t := by
  cases xs with
  | nil => exact ⟨t0, by simp [renderItems_nil, h]⟩
  | cons y ys => exact ⟨t0 ++ 44 :: 32 :: renderItems y ys, by simp [renderItems_cons, h]⟩

/-- Round-trip of the JSON parser against the serializer: with enough fuel,
parsing a rendered well-formed value (followed by a legal terminator)
consumes exactly the rendered text and returns the value. -/
theorem parse_render (f : Nat) :
    (∀ v rest, jsize v ≤ f → wfJson v = true → restOk rest →
      parseVal f (render v ++ rest) = some (v, rest)) ∧
    (∀ x xs rest, jsizeL (x :: xs) ≤ f → wfL (x :: xs) = true →
      parseArrItems f (renderItems x xs ++ 93 :: rest) = some (x :: xs, rest)) ∧
    (∀ k v kvs rest, jsizeF ((k, v) :: kvs) ≤ f → wfF ((k, v) :: kvs) = true →
      parseObjItems f (renderFields k v kvs ++ 125 :: rest) = some ((k, v) :: kvs, rest)) := by
  induction f using Nat.strong_induction_on with
  | _ f ih =>
  refine ⟨?_, ?_, ?_⟩
  · intro v rest hsz hwf hro
    obtain ⟨g, rfl⟩ : ∃ g, f = g + 1 := ⟨f - 1, by have := jsize_pos v; omega⟩
    cases v with
    | null =>
      rw [show render .null ++ rest = 110 :: 117 :: 108 :: 108 :: rest from by simp [render],
        parseVal_null]
    | bool b =>
      cases b with
      | true =>
        rw [show render (.bool true) ++ rest = 116 :: 114 :: 117 :: 101 :: rest from by
          simp [render], parseVal_true]
      | false =>
        rw [show render (.bool false) ++ rest = 102 :: 97 :: 108 :: 115 :: 101 :: rest from by
          simp [render], parseVal_false]
    | num i =>
      have hnd := restOk_noDigit rest hro
      rw [show render (.num i) ++ rest = renderInt i ++ rest from by simp [render]]
      by_cases hneg : i < 0
      · rw [show renderInt i = 45 :: natDigits i.natAbs from by rw [renderInt, if_pos hneg],
          List.cons_append, parseVal_minus, parseNat_natDigits i.natAbs rest hnd]
        simp only [Option.map_some', Option.some.injEq, Prod.mk.injEq, Json.num.injEq,
          and_true]
        omega
      · rw [show renderInt i = natDigits i.natAbs from by rw [renderInt, if_neg hneg]]
        obtain ⟨c, t, hct, h1, h2⟩ := natDigits_shape i.natAbs
        rw [hct, List.cons_append, parseVal_digit g c _ ⟨h1, h2⟩, ← List.cons_append, ← hct,
          parseNat_natDigits i.natAbs rest hnd]
        simp only [Option.map_some', Option.some.injEq, Prod.mk.injEq, Json.num.injEq,
          and_true]
        omega
    | str s =>
      have hv : validStr s = true := by simpa [wfJson] using hwf
      rw [show render (.str s) ++ rest = 34 :: (escapeStr s ++ 34 :: rest) from by
        simp [render], parseVal_quote,
        parseStringBody_escapeStr s rest _ hv (by
          have := escapeStr_length_ge s
          simp only [List.length_append, List.length_cons]
          omega)]
      rfl
    | arr xs =>
      cases xs with
      | nil =>
        rw [show render (.arr []) ++ rest = 91 :: 93 :: rest from by simp [render],
          parseVal_lbracket, skipWs_cons_false 93 rest (by decide)]
        simp
      | cons x xs =>
        have hszL : jsizeL (x :: xs) ≤ g := by simp [jsize] at hsz; omega
        have hwfL : wfL (x :: xs) = true := by simpa [wfJson] using hwf
        rw [show render (.arr (x :: xs)) ++ rest =
          91 :: (renderItems x xs ++ 93 :: rest) from by simp [render_arr_cons], parseVal_lbracket]
        obtain ⟨c0, t0, hct0, hws0, h93, h125⟩ := renderHead x
        obtain ⟨t1, ht1⟩ := renderItems_head x xs c0 t0 hct0
        rw [show renderItems x xs ++ 93 :: rest = c0 :: (t1 ++ 93 :: rest) from by
          rw [ht1]; simp]
        rw [skipWs_cons_false c0 _ hws0]
        rw [if_neg (by simpa using h93)]
        rw [show c0 :: (t1 ++ 93 :: rest) = renderItems x xs ++ 93 :: rest from by
          rw [ht1]; simp]
        rw [(ih g (by omega)).2.1 x xs rest hszL hwfL]
        rfl
    | obj kvs =>
      cases kvs with
      | nil =>
        rw [show render (.obj []) ++ rest = 123 :: 125 :: rest from by simp [render],
          parseVal_lbrace, skipWs_cons_false 125 rest (by decide)]
        simp
      | cons kv kvs =>
        obtain ⟨k, v⟩ := kv
        have hwf2 : keysNodupB ((k, v) :: kvs) = true ∧ wfF ((k, v) :: kvs) = true := by
          have := hwf
          rw [wfJson, Bool.and_eq_true] at this
          exact this
        have hszF : jsizeF ((k, v) :: kvs) ≤ g := by simp [jsize] at hsz; omega
        rw [show render (.obj ((k, v) :: kvs)) ++ rest =
          123 :: (renderFields k v kvs ++ 125 :: rest) from by simp [render_obj_cons], parseVal_lbrace]
        have hhead : ∃ t, renderFields k v kvs = 34 :: t := by
          cases kvs with
          | nil => exact ⟨escapeStr k ++ 34 :: 58 :: 32 :: render v, by simp [renderFields_nil]⟩
          | cons kv1 kvs =>
            obtain ⟨k1, v1⟩ := kv1
            exact ⟨(escapeStr k ++ 34 :: 58 :: 32 :: render v) ++
              44 :: 32 :: renderFields k1 v1 kvs, by simp [renderFields_cons]⟩
        obtain ⟨t1, ht1⟩ := hhead
        rw [show renderFields k v kvs ++ 125 :: rest = 34 :: (t1 ++ 125 :: rest) from by
          rw [ht1]; simp]
        rw [skipWs_cons_false 34 _ (by decide)]
        rw [if_neg (by simp)]
        rw [show (34 : Nat) :: (t1 ++ 125 :: rest) = renderFields k v kvs ++ 125 :: rest from by
          rw [ht1]; simp]
        rw [(ih g (by omega)).2.2 k v kvs rest hszF hwf2.2]
        simp only [Option.map_some']
        rw [dedupPairs_nodup _ hwf2.1]
  · intro x xs rest hsz hwf
    obtain ⟨g, rfl⟩ : ∃ g, f = g + 1 := ⟨f - 1, by
      have := jsize_pos x
      simp [jsizeL] at hsz
      omega⟩
    rw [wfL, Bool.and_eq_true] at hwf
    rw [parseArrItems_succ]
    cases xs with
    | nil =>
      have hszx : jsize x ≤ g := by simp [jsizeL] at hsz; omega
      rw [show renderItems x [] ++ 93 :: rest = render x ++ 93 :: rest from by
        simp [renderItems_nil]]
      rw [(ih g (by omega)).1 x (93 :: rest) hszx hwf.1 (by simp [restOk])]
      simp only []
      rw [skipWs_cons_false 93 rest (by decide)]
    | cons y ys =>
      have hszx : jsize x ≤ g := by simp [jsizeL] at hsz; omega
      have hszyl : jsizeL (y :: ys) ≤ g := by simp [jsizeL] at hsz ⊢; omega
      rw [show renderItems x (y :: ys) ++ 93 :: rest =
        render x ++ (44 :: 32 :: (renderItems y ys ++ 93 :: rest)) from by
        simp [renderItems_cons]]
      rw [(ih g (by omega)).1 x _ hszx hwf.1 (by simp [restOk])]
      simp only []
      rw [skipWs_cons_false 44 _ (by decide)]
      simp only []
      rw [parseArrItems_ws, (ih g (by omega)).2.1 y ys rest hszyl hwf.2]
      rfl
  · intro k v kvs rest hsz hwf
    obtain ⟨g, rfl⟩ : ∃ g, f = g + 1 := ⟨f - 1, by
      have := jsize_pos v
      simp [jsizeF] at hsz
      omega⟩
    rw [wfF, Bool.and_eq_true, Bool.and_eq_true] at hwf
    obtain ⟨⟨hk, hv⟩, hrest⟩ := hwf
    have hszv : jsize v ≤ g := by simp [jsizeF] at hsz; omega
    rw [parseObjItems_succ]
    cases kvs with
    | nil =>
      rw [show renderFields k v [] ++ 125 :: rest =
        34 :: (escapeStr k ++ 34 :: 58 :: 32 :: (render v ++ 125 :: rest)) from by
        rw [renderFields_nil]; simp]
      rw [skipWs_cons_false 34 _ (by decide)]
      simp only []
      rw [parseStringBody_escapeStr k _ _ hk (by
        have := escapeStr_length_ge k
        simp only [List.length_append, List.length_cons]
        omega)]
      simp only []
      rw [skipWs_cons_false 58 _ (by decide)]
      simp only []
      rw [parseVal_ws, (ih g (by omega)).1 v (125 :: rest) hszv hv (by simp [restOk])]
      simp only []
      rw [skipWs_cons_false 125 rest (by decide)]
    | cons kv1 kvs =>
      obtain ⟨k1, v1⟩ := kv1
      have hszr : jsizeF ((k1, v1) :: kvs) ≤ g := by simp [jsizeF] at hsz ⊢; omega
      rw [show renderFields k v ((k1, v1) :: kvs) ++ 125 :: rest =
        34 :: (escapeStr k ++ 34 :: 58 :: 32 ::
          (render v ++ 44 :: 32 :: (renderFields k1 v1 kvs ++ 125 :: rest))) from by
        rw [renderFields_cons]; simp]
      rw [skipWs_cons_false 34 _ (by decide)]
      simp only []
      rw [parseStringBody_escapeStr k _ _ hk (by
        have := escapeStr_length_ge k
        simp only [List.length_append, List.length_cons]
        omega)]
      simp only []
      rw [skipWs_cons_false 58 _ (by decide)]
      simp only []
      rw [parseVal_ws, (ih g (by omega)).1 v _ hszv hv (by simp [restOk])]
      simp only []
      rw [skipWs_cons_false 44 _ (by decide)]
      simp only []
      rw [parseObjItems_ws, (ih g (by omega)).2.2 k1 v1 kvs rest hszr hrest]
      rfl

/-- The size measure is bounded by the rendered length, so the fuel
`length + 1` used by `pyLoads` always suffices. -/
theorem jsize_le_render (f : Nat) :
    (∀ v, jsize v ≤ f → jsize v ≤ (render v).length) ∧
    (∀ x xs, jsizeL (x :: xs) ≤ f → jsizeL (x :: xs) ≤ (renderItems x xs).length + 1) ∧
    (∀ k v kvs, jsizeF ((k, v) :: kvs) ≤ f →
      jsizeF ((k, v) :: kvs) ≤ (renderFields k v kvs).length + 1) := by
  induction f using Nat.strong_induction_on with
  | _ f ih =>
  refine ⟨?_, ?_, ?_⟩
  · intro v hsz
    cases v with
    | null => simp [jsize, render]
    | bool b => cases b <;> simp [jsize, render]
    | num i =>
      obtain ⟨c, t, hct, _, _⟩ := natDigits_shape i.natAbs
      by_cases h : i < 0 <;> simp [jsize, render, renderInt, h, hct]
    | str s => simp [jsize, render]
    | arr xs =>
      cases xs with
      | nil => simp [jsize, render]
      | cons x xs =>
        obtain ⟨g, rfl⟩ : ∃ g, f = g + 1 := ⟨f - 1, by
          have := jsize_pos (.arr (x :: xs)); omega⟩
        have hL := (ih g (by omega)).2.1 x xs (by simp [jsize] at hsz; omega)
        simp only [jsize, render_arr_cons, List.length_cons, List.length_append,
          List.length_singleton] at hL ⊢
        omega
    | obj kvs =>
      cases kvs with
      | nil => simp [jsize, render]
      | cons kv kvs =>
        obtain ⟨k, v⟩ := kv
        obtain ⟨g, rfl⟩ : ∃ g, f = g + 1 := ⟨f - 1, by
          have := jsize_pos (.obj ((k, v) :: kvs)); omega⟩
        have hL := (ih g (by omega)).2.2 k v kvs (by simp [jsize] at hsz; omega)
        simp only [jsize, render_obj_cons, List.length_cons, List.length_append,
          List.length_singleton] at hL ⊢
        omega
  · intro x xs hsz
    obtain ⟨g, rfl⟩ : ∃ g, f = g + 1 := ⟨f - 1, by
      have := jsize_pos x
      simp [jsizeL] at hsz
      omega⟩
    cases xs with
    | nil =>
      have h1 := (ih g (by omega)).1 x (by simp [jsizeL] at hsz; omega)
      simp only [jsizeL, renderItems_nil]
      omega
    | cons y ys =>
      have h1 := (ih g (by omega)).1 x (by simp [jsizeL] at hsz; omega)
      have h2 := (ih g (by omega)).2.1 y ys (by simp [jsizeL] at hsz ⊢; omega)
      simp only [jsizeL, renderItems_cons, List.length_append, List.length_cons] at h2 ⊢
      omega
  · intro k v kvs hsz
    obtain ⟨g, rfl⟩ : ∃ g, f = g + 1 := ⟨f - 1, by
      have := jsize_pos v
      simp [jsizeF] at hsz
      omega⟩
    have h1 := (ih g (by omega)).1 v (by simp [jsizeF] at hsz; omega)
    cases kvs with
    | nil =>
      simp only [jsizeF, renderFields_nil, List.length_cons, List.length_append]
      omega
    | cons kv1 kvs =>
      obtain ⟨k1, v1⟩ := kv1
      have h2 := (ih g (by omega)).2.2 k1 v1 kvs (by simp [jsizeF] at hsz ⊢; omega)
      simp only [jsizeF, renderFields_cons, List.length_cons, List.length_append] at h2 ⊢
      omega

/-- Hexadecimal digit characters are ASCII. -/
theorem hexChar_lt (d : Nat) (h : d < 16) : hexChar d < 128 := by
  unfold hexChar
  split <;> omega

/-- Every character of an escaped character is ASCII. -/
theorem escapeChar_ascii (c : Nat) : ∀ x ∈ escapeChar c, x < 128 := by
  intro x hx
  unfold escapeChar at hx
  have h1 := hexChar_lt (c / 4096 % 16) (by omega)
  have h2 := hexChar_lt (c / 256 % 16) (by omega)
  have h3 := hexChar_lt (c / 16 % 16) (by omega)
  have h4 := hexChar_lt (c % 16) (by omega)
  have h5 := hexChar_lt ((55296 + (c - 65536) / 1024) / 4096 % 16) (by omega)
  have h6 := hexChar_lt ((55296 + (c - 65536) / 1024) / 256 % 16) (by omega)
  have h7 := hexChar_lt ((55296 + (c - 65536) / 1024) / 16 % 16) (by omega)
  have h8 := hexChar_lt ((55296 + (c - 65536) / 1024) % 16) (by omega)
  have h9 := hexChar_lt ((56320 + (c - 65536) % 1024) / 4096 % 16) (by omega)
  have h10 := hexChar_lt ((56320 + (c - 65536) % 1024) / 256 % 16) (by omega)
  have h11 := hexChar_lt ((56320 + (c - 65536) % 1024) / 16 % 16) (by omega)
  have h12 := hexChar_lt ((56320 + (c - 65536) % 1024) % 16) (by omega)
  repeat' split at hx
  all_goals simp [hex4] at hx
  all_goals rcases hx with hx | hx | hx | hx | hx | hx | hx | hx | hx | hx | hx | hx <;>
    first
    | omega
    | (subst hx; omega)

/-- Decimal digit characters are ASCII. -/
theorem natDigits_ascii (n : Nat) : ∀ x ∈ natDigits n, x < 128 := by
  induction n using Nat.strong_induction_on with
  | _ n ih =>
    intro x hx
    rw [natDigits_unfold] at hx
    by_cases h : n < 10
    · rw [if_pos h] at hx
      simp at hx
      omega
    · rw [if_neg h] at hx
      rcases List.mem_append.mp hx with hm | hm
      · exact ih (n / 10) (Nat.div_lt_self (by omega) (by omega)) x hm
      · simp at hm
        omega

/-- Every character of a rendered value is ASCII (`ensure_ascii=True`). -/
theorem render_ascii (f : Nat) :
    (∀ v, jsize v ≤ f → ∀ x ∈ render v, x < 128) ∧
    (∀ a xs, jsizeL (a :: xs) ≤ f → ∀ x ∈ renderItems a xs, x < 128) ∧
    (∀ k v kvs, jsizeF ((k, v) :: kvs) ≤ f → ∀ x ∈ renderFields k v kvs, x < 128) := by
  induction f using Nat.strong_induction_on with
  | _ f ih =>
  refine ⟨?_, ?_, ?_⟩
  · intro v hsz x hx
    cases v with
    | null => simp [render] at hx; omega
    | bool b => cases b <;> simp [render] at hx <;> omega
    | num i =>
      rw [show render (.num i) = renderInt i from by simp [render], renderInt] at hx
      by_cases h : i < 0
      · rw [if_pos h] at hx
        rcases List.mem_cons.mp hx with hm | hm
        · omega
        · exact natDigits_ascii _ x hm
      · rw [if_neg h] at hx
        exact natDigits_ascii _ x hx
    | str s =>
      rw [show render (.str s) = 34 :: escapeStr s ++ [34] from by simp [render]] at hx
      rcases List.mem_cons.mp hx with hm | hm
      · omega
      rcases List.mem_append.mp hm with hm2 | hm2
      · obtain ⟨c, hc, hcm⟩ := List.mem_flatMap.mp hm2
        exact escapeChar_ascii c x hcm
      · simp at hm2; omega
    | arr xs =>
      cases xs with
      | nil => simp [render] at hx; omega
      | cons a xs =>
        obtain ⟨g, rfl⟩ : ∃ g, f = g + 1 := ⟨f - 1, by
          have := jsize_pos (.arr (a :: xs)); omega⟩
        rw [show render (.arr (a :: xs)) = 91 :: renderItems a xs ++ [93] from
          render_arr_cons a xs] at hx
        rcases List.mem_cons.mp hx with hm | hm
        · omega
        rcases List.mem_append.mp hm with hm2 | hm2
        · exact (ih g (by omega)).2.1 a xs (by simp [jsize] at hsz; omega) x hm2
        · simp at hm2; omega
    | obj kvs =>
      cases kvs with
      | nil => simp [render] at hx; omega
      | cons kv kvs =>
        obtain ⟨k, v⟩ := kv
        obtain ⟨g, rfl⟩ : ∃ g, f = g + 1 := ⟨f - 1, by
          have := jsize_pos (.obj ((k, v) :: kvs)); omega⟩
        rw [show render (.obj ((k, v) :: kvs)) = 123 :: renderFields k v kvs ++ [125] from
          render_obj_cons k v kvs] at hx
        rcases List.mem_cons.mp hx with hm | hm
        · omega
        rcases List.mem_append.mp hm with hm2 | hm2
        · exact (ih g (by omega)).2.2 k v kvs (by simp [jsize] at hsz; omega) x hm2
        · simp at hm2; omega
  · intro a xs hsz x hx
    obtain ⟨g, rfl⟩ : ∃ g, f = g + 1 := ⟨f - 1, by
      have := jsize_pos a
      simp [jsizeL] at hsz
      omega⟩
    cases xs with
    | nil =>
      rw [show renderItems a [] = render a from renderItems_nil a] at hx
      exact (ih g (by omega)).1 a (by simp [jsizeL] at hsz; omega) x hx
    | cons y ys =>
      rw [show renderItems a (y :: ys) = render a ++ 44 :: 32 :: renderItems y ys from
        renderItems_cons a y ys] at hx
      rcases List.mem_append.mp hx with hm | hm
      · exact (ih g (by omega)).1 a (by simp [jsizeL] at hsz; omega) x hm
      rcases List.mem_cons.mp hm with hm2 | hm2
      · omega
      rcases List.mem_cons.mp hm2 with hm3 | hm3
      · omega
      · exact (ih g (by omega)).2.1 y ys (by simp [jsizeL] at hsz ⊢; omega) x hm3
  · intro k v kvs hsz x hx
    obtain ⟨g, rfl⟩ : ∃ g, f = g + 1 := ⟨f - 1, by
      have := jsize_pos v
      simp [jsizeF] at hsz
      omega⟩
    have hfield : ∀ y ∈ 34 :: escapeStr k ++ 34 :: 58 :: 32 :: render v, y < 128 := by
      intro y hy
      rcases List.mem_cons.mp hy with hm | hm
      · omega
      rcases List.mem_append.mp hm with hm2 | hm2
      · obtain ⟨c, hc, hcm⟩ := List.mem_flatMap.mp hm2
        exact escapeChar_ascii c y hcm
      · rcases List.mem_cons.mp hm2 with h3 | h3
        · omega
        rcases List.mem_cons.mp h3 with h4 | h4
        · omega
        rcases List.mem_cons.mp h4 with h5 | h5
        · omega
        · exact (ih g (by omega)).1 v (by simp [jsizeF] at hsz; omega) y h5
    cases kvs with
    | nil =>
      rw [show renderFields k v [] = 34 :: escapeStr k ++ 34 :: 58 :: 32 :: render v from
        renderFields_nil k v] at hx
      exact hfield x hx
    | cons kv1 kvs =>
      obtain ⟨k1, v1⟩ := kv1
      rw [show renderFields k v ((k1, v1) :: kvs) =
        (34 :: escapeStr k ++ 34 :: 58 :: 32 :: render v) ++
          44 :: 32 :: renderFields k1 v1 kvs from renderFields_cons k v k1 v1 kvs] at hx
      rcases List.mem_append.mp hx with hm | hm
      · exact hfield x hm
      rcases List.mem_cons.mp hm with hm2 | hm2
      · omega
      rcases List.mem_cons.mp hm2 with hm3 | hm3
      · omega
      · exact (ih g (by omega)).2.2 k1 v1 kvs (by simp [jsizeF] at hsz ⊢; omega) x hm3

/-- Parsing back a rendered well-formed value with `json.loads` succeeds. -/
theorem pyLoads_render (v : Json) (h : wfJson v = true) : pyLoads (render v) = some v := by
  rw [pyLoads]
  have hsz : jsize v ≤ (render v).length := (jsize_le_render (jsize v)).1 v le_rfl
  have hp := (parse_render ((render v).length + 1)).1 v [] (by omega) h trivial
  rw [List.append_nil] at hp
  rw [hp]
  rfl

/-- UTF-8 encoding is the identity on ASCII text. -/
theorem utf8Encode_ascii (l : List Nat) (h : ∀ x ∈ l, x < 128) : utf8Encode l = l := by
  induction l with
  | nil => rfl
  | cons c r ih =>
    have hc : c < 128 := h c (by simp)
    have ihr := ih (fun x hx => h x (by simp [hx]))
    calc utf8Encode (c :: r) = utf8EncodeChar c ++ utf8Encode r := by
          simp [utf8Encode]
      _ = [c] ++ utf8Encode r := by rw [utf8EncodeChar, if_pos hc]
      _ = c :: r := by rw [ihr]; rfl

/-- Decoding ASCII bytes with any sufficient character budget yields them
unchanged. -/
theorem utf8DecodeTake_ascii (l : List Nat) : ∀ n, l.length ≤ n → (∀ x ∈ l, x < 128) →
    utf8DecodeTake n l = some l := by
  induction l with
  | nil =>
    intro n _ _
    cases n <;> rfl
  | cons b r ih =>
    intro n hn h
    obtain ⟨m, rfl⟩ : ∃ m, n = m + 1 := ⟨n - 1, by simp at hn; omega⟩
    rw [utf8DecodeTake.eq_def]
    simp only []
    rw [if_pos (h b (by simp))]
    rw [ih m (by simp at hn; omega) (fun x hx => h x (by simp [hx]))]
    rfl

/-- Decoding with any character budget at least the byte count reads the
whole stream: the budget never runs out before the input does. -/
theorem utf8DecodeTake_over (k : Nat) : ∀ l : List Nat, l.length ≤ k → ∀ n, l.length ≤ n →
    utf8DecodeTake n l = utf8DecodeAll l := by
  induction k using Nat.strong_induction_on with
  | _ k ih =>
  intro l hlk n hln
  cases l with
  | nil =>
    rw [utf8DecodeAll]
    cases n <;> rfl
  | cons b rest =>
    obtain ⟨m, rfl⟩ : ∃ m, n = m + 1 := ⟨n - 1, by simp at hln; omega⟩
    rw [utf8DecodeAll, show (b :: rest).length = rest.length + 1 from by simp]
    conv_lhs => rw [utf8DecodeTake.eq_def]
    conv_rhs => rw [utf8DecodeTake.eq_def]
    simp only []
    by_cases h1 : b < 128
    · simp only [if_pos h1]
      rw [ih rest.length (by simp at hlk; omega) rest le_rfl m (by simp at hln; omega),
        ih rest.length (by simp at hlk; omega) rest le_rfl rest.length le_rfl]
    · simp only [if_neg h1]
      by_cases h2 : b < 194
      · simp only [if_pos h2]
      · simp only [if_neg h2]
        by_cases h3 : b < 224
        · simp only [if_pos h3]
          cases rest with
          | nil => rfl
          | cons b2 rest2 =>
            simp only []
            by_cases h4 : 128 ≤ b2 ∧ b2 < 192
            · simp only [if_pos h4]
              rw [ih rest2.length (by simp at hlk; omega) rest2 le_rfl m
                  (by simp at hln; omega),
                ih rest2.length (by simp at hlk; omega) rest2 le_rfl (b2 :: rest2).length
                  (by simp)]
            · simp only [if_neg h4]
        · by_cases h5 : b < 240
          · simp only [if_neg h3, if_pos h5]
            match rest with
            | [] => rfl
            | [b2] => rfl
            | b2 :: b3 :: rest3 =>
              simp only []
              by_cases h6 : (if b = 224 then 160 ≤ b2 ∧ b2 < 192
                  else if b = 237 then 128 ≤ b2 ∧ b2 < 160
                  else 128 ≤ b2 ∧ b2 < 192) ∧ 128 ≤ b3 ∧ b3 < 192
              · simp only [if_pos h6]
                rw [ih rest3.length (by simp at hlk; omega) rest3 le_rfl m
                    (by simp at hln; omega),
                  ih rest3.length (by simp at hlk; omega) rest3 le_rfl
                    (b2 :: b3 :: rest3).length (by simp; omega)]
              · simp only [if_neg h6]
          · by_cases h7 : b < 245
            · simp only [if_neg h3, if_neg h5, if_pos h7]
              match rest with
              | [] => rfl
              | [b2] => rfl
              | [b2, b3] => rfl
              | b2 :: b3 :: b4 :: rest4 =>
                simp only []
                by_cases h8 : (if b = 240 then 144 ≤ b2 ∧ b2 < 192
                    else if b = 244 then 128 ≤ b2 ∧ b2 < 144
                    else 128 ≤ b2 ∧ b2 < 192) ∧ 128 ≤ b3 ∧ b3 < 192 ∧ 128 ≤ b4 ∧ b4 < 192
                · simp only [if_pos h8]
                  rw [ih rest4.length (by simp at hlk; omega) rest4 le_rfl m
                      (by simp at hln; omega),
                    ih rest4.length (by simp at hlk; omega) rest4 le_rfl
                      (b2 :: b3 :: b4 :: rest4).length (by simp; omega)]
                · simp only [if_neg h8]
            · simp only [if_neg h3, if_neg h5, if_neg h7]

/-- The length prefix survives the pack/unpack round trip below `2^32`. -/
theorem unpackUI32_packUI32 (n : Nat) (h : n < 4294967296) :
    unpackUI32 (packUI32 n) = n := by
  rw [packUI32, unpackUI32]
  omega

/-- The first four bytes of a framed message are its length prefix. -/
theorem take_packUI32 (n : Nat) (l : List Nat) : (packUI32 n ++ l).take 4 = packUI32 n := by
  rw [packUI32]
  rfl

/-- The bytes after the prefix of a framed message are its payload. -/
theorem drop_packUI32 (n : Nat) (l : List Nat) : (packUI32 n ++ l).drop 4 = l := by
  rw [packUI32]
  rfl

/-- Reading back a framed message: the header consumes exactly the prefix and
the declared number of characters is decoded from the payload. -/
theorem get_message_framed (n : Nat) (payload : List Nat) (h : n < 4294967296) :
    get_message (packUI32 n ++ payload) =
      (match utf8DecodeTake n payload with
       | none => .error .unicodeDecodeError
       | some message =>
         match pyLoads message with
         | some v => .ok v
         | none => .error .jsonDecodeError) := by
  rw [get_message]
  simp only [take_packUI32, drop_packUI32]
  rw [if_neg (by rw [packUI32]; simp), if_neg (by rw [packUI32]; simp),
    unpackUI32_packUI32 n h]

/-- Round trip of the framing: a value sent by `send_message` is decoded back
by `get_message`. -/
theorem get_message_send_message (v : Json) (hwf : wfJson v = true)
    (hlen : (render v).length < 4294967296) :
    get_message (send_message v) = .ok v := by
  have hasc : ∀ x ∈ render v, x < 128 := (render_ascii (jsize v)).1 v le_rfl
  rw [send_message, utf8Encode_ascii _ hasc, get_message_framed _ _ hlen,
    utf8DecodeTake_ascii (render v) _ le_rfl hasc]
  simp only []
  rw [pyLoads_render v hwf]

/-- The empty JSON object. -/
def jEmpty : Json := .obj []

/-- The success reply as a message value. -/
def jOkay : Json := .obj [(s2c "okay", .bool true)]

/-- The request selecting the `always` preference. -/
def jAlways : Json := .obj [(s2c "whenToHideTitleBar", .str (s2c "always"))]

/-- A message value containing non-ASCII text (accented and astral). -/
def jNonAscii : Json := .obj [(s2c "title", .str (s2c "héllo 😀"))]

/-- An environment where the `pidof` executable is missing. -/
def envPidofAbsent : Env := ⟨fun _ => .error .notFound, .ok []⟩

/-- An environment where `pidof` exits with a non-zero status (no process of
the requested name is running). -/
def envPidofFails : Env := ⟨fun _ => .error .nonZeroExit, .ok []⟩

/-- C1 counterexample: with `pidof` exiting non-zero (the target process not
running) and a decoration-requiring request, `windows_by_procname` does not
yield the empty window sequence — `CalledProcessError` propagates — and the
helper exits with status 2 and no reply instead of replying and exiting
normally. -/
theorem C1_counterexample :
    envPidofFails.pidof PROC_NAME = .error .nonZeroExit ∧
    windows_by_procname envPidofFails PROC_NAME ≠ .ok [] ∧
    mainRun (send_message jAlways) envPidofFails = ⟨2, []⟩ := by
  refine ⟨rfl, ?_, by decide⟩
  intro h
  have h2 : Except.error PyError.calledProcessError = Except.ok ([] : List Window) := h
  exact Except.noConfusion h2

/-- C1 (amended): when the PID-lookup command exits with a non-zero status
and the decoded request requires a decoration action, `get_pids` raises
`CalledProcessError`, so `windows_by_procname` propagates the error instead
of yielding an empty sequence, and the helper terminates with exit status 2
and no reply; the PID set is never treated as empty. -/
theorem C1_amended (env : Env) (input : List Nat) (m : Json) (w : WhenToHideTitleBar)
    (hp : env.pidof PROC_NAME = .error .nonZeroExit)
    (hm : get_message input = .ok m) (hw : from_message m = .ok w)
    (hd : policy_decoration w ≠ none) :
    windows_by_procname env PROC_NAME = .error .calledProcessError ∧
      mainRun input env = ⟨2, []⟩ := by
  have hwin : windows_by_procname env PROC_NAME = .error .calledProcessError := by
    simp [windows_by_procname, get_pids, runCmd, hp]
    try rfl
  refine ⟨hwin, ?_⟩
  cases hpd : policy_decoration w with
  | none => exact absurd hpd hd
  | some d =>
    have hhide : hide_title_bar env PROC_NAME w = .error .calledProcessError := by
      rw [hide_title_bar, hpd]
      simp [decorate_windows, hwin, Except.map]
    simp [mainRun, hm, hw, hhide, pyExitCode]

/-- C1 witness: the amended statement at the `always` request and an
environment whose `pidof` exits non-zero. -/
theorem C1_witness :
    windows_by_procname envPidofFails PROC_NAME = .error .calledProcessError ∧
      mainRun (send_message jAlways) envPidofFails = ⟨2, []⟩ :=
  C1_amended envPidofFails (send_message jAlways) jAlways .ALWAYS rfl rfl rfl (by decide)

/-- C2: the policy resolution is total over the four-element preference
domain and returns exactly the documented action/reply pair in every case:
`ALWAYS` gives the border-only decoration and the okay reply, `MAX_ONLY`
gives no action and the `MAX_ONLY_UNSUPPORTED` failure, `NEVER` gives the
full decoration and the okay reply, `UNKNOWN` gives no action and the
`UNKNOWN_WHEN_TO_HIDE` failure; no fifth action/reply combination occurs. -/
theorem C2_policy_table :
    (policy_decoration .ALWAYS = some .border ∧
      reply_of_result (policy_result .ALWAYS) = replyOkay) ∧
    (policy_decoration .MAX_ONLY = none ∧
      reply_of_result (policy_result .MAX_ONLY) = replyMaxOnly) ∧
    (policy_decoration .NEVER = some .all ∧
      reply_of_result (policy_result .NEVER) = replyOkay) ∧
    (policy_decoration .UNKNOWN = none ∧
      reply_of_result (policy_result .UNKNOWN) = replyUnknown) ∧
    (∀ w, (policy_decoration w = some .border ∨ policy_decoration w = some .all ∨
        policy_decoration w = none) ∧
      (reply_of_result (policy_result w) = replyOkay ∨
        reply_of_result (policy_result w) = replyMaxOnly ∨
        reply_of_result (policy_result w) = replyUnknown)) := by
  refine ⟨⟨rfl, rfl⟩, ⟨rfl, rfl⟩, ⟨rfl, rfl⟩, ⟨rfl, rfl⟩, ?_⟩
  intro w
  cases w <;> exact ⟨by simp [policy_decoration], by simp [policy_result, reply_of_result,
    replyOkay, replyMaxOnly, replyUnknown]⟩

/-- C3: round-trip of the message framing — decoding, via `get_message`, the
exact byte sequence produced by `send_message v` yields `v` back, for every
JSON value (with, as for every actual Python value, valid Unicode strings and
duplicate-free object keys, and a serialization below the 32-bit length
limit). -/
theorem C3_roundtrip (v : Json) (hwf : wfJson v = true)
    (hlen : (render v).length < 4294967296) :
    get_message (send_message v) = .ok v :=
  get_message_send_message v hwf hlen

/-- C3 witness: the round trip at the empty object, the okay reply, the
`always` request and a value containing non-ASCII text. -/
theorem C3_witness :
    get_message (send_message jEmpty) = .ok jEmpty ∧
    get_message (send_message jOkay) = .ok jOkay ∧
    get_message (send_message jAlways) = .ok jAlways ∧
    get_message (send_message jNonAscii) = .ok jNonAscii :=
  ⟨C3_roundtrip jEmpty rfl (by decide), C3_roundtrip jOkay rfl (by decide),
    C3_roundtrip jAlways rfl (by decide), C3_roundtrip jNonAscii rfl (by decide)⟩

/-- An environment where both commands succeed with empty output: the target
process has no PIDs and no windows are listed. -/
def envNoWindows : Env := ⟨fun _ => .ok [], .ok []⟩

/-- C4 counterexample: a length prefix claiming 10 payload bytes followed by
only the two bytes `\x7b\x7d` does not make `get_message` signal a decode
error — the text-mode `stdin.read(length)` silently returns the fewer
available characters and `json.loads` accepts them, so the truncated stream
is returned as a successful result. -/
theorem C4_counterexample :
    (s2c "\x7b\x7d").length < 10 ∧
    get_message (packUI32 10 ++ s2c "\x7b\x7d") = .ok (.obj []) :=
  ⟨by decide, rfl⟩

/-- C4 (amended): when the 4-byte length prefix claims more payload bytes
than are available, `get_message` does not block (it is a total function of
the input) but reads the fewer available characters (`stdin.read` returns
fewer at end of input): it fails with a Unicode or JSON decode error exactly
when the available payload fails to decode or parse, and otherwise returns
the value parsed from the truncated payload as a successful result. -/
theorem C4_amended (n : Nat) (payload : List Nat) (h32 : n < 4294967296)
    (hshort : payload.length < n) :
    get_message (packUI32 n ++ payload) =
      (match utf8DecodeAll payload with
       | none => .error .unicodeDecodeError
       | some message =>
         match pyLoads message with
         | some v => .ok v
         | none => .error .jsonDecodeError) := by
  rw [get_message_framed n payload h32,
    utf8DecodeTake_over payload.length payload le_rfl n (by omega)]

/-- C4 witness: the amended statement at a 10-byte prefix over a single
available byte `\x7b`, which parses to no JSON value. -/
theorem C4_witness :
    get_message (packUI32 10 ++ [123]) = .error .jsonDecodeError ∧
    ([123] : List Nat).length < 10 :=
  ⟨(C4_amended 10 [123] (by decide) (by decide)).trans rfl, by decide⟩

/-- C5 counterexample: the JSON array `[]` is a successfully decoded request
message, yet deriving the preference from it fails — `msg["whenToHideTitleBar"]`
on a list raises `TypeError`, which `from_message` only guards with
`except KeyError` — instead of returning one of the four enumerated values. -/
theorem C5_counterexample :
    get_message (send_message (.arr [])) = .ok (.arr []) ∧
    from_message (.arr []) = .error .typeError :=
  ⟨rfl, rfl⟩

/-- C5 (amended): for every decoded message that is a JSON object, deriving
the preference never fails and yields one of the four enumerated values —
`UNKNOWN` whenever the `whenToHideTitleBar` field is absent or holds any
value other than the three known strings — but for a decoded non-object
message the subscript raises an uncaught `TypeError`. -/
theorem C5_preference_total :
    (∀ fields, ∃ w, from_message (.obj fields) = .ok w) ∧
    (∀ fields, List.lookup keyWTH fields = none → from_message (.obj fields) = .ok .UNKNOWN) ∧
    (∀ fields v, List.lookup keyWTH fields = some v →
      v ≠ .str (s2c "always") → v ≠ .str (s2c "maxonly") → v ≠ .str (s2c "never") →
      from_message (.obj fields) = .ok .UNKNOWN) ∧
    (∀ m w, from_message m = .ok w →
      w = .ALWAYS ∨ w = .MAX_ONLY ∨ w = .NEVER ∨ w = .UNKNOWN) ∧
    (∀ m, (∃ w, from_message m = .ok w) ∨ from_message m = .error .typeError) := by
  refine ⟨?_, ?_, ?_, ?_, ?_⟩
  · intro fields
    cases h : List.lookup keyWTH fields with
    | none => exact ⟨.UNKNOWN, by simp [from_message, h]⟩
    | some v => exact ⟨matchPref v, by simp [from_message, h]⟩
  · intro fields h
    simp [from_message, h]
  · intro fields v hl h1 h2 h3
    cases v with
    | str s =>
      simp only [ne_eq, Json.str.injEq] at h1 h2 h3
      simp [from_message, hl, matchPref, h1, h2, h3]
    | null => simp [from_message, hl, matchPref]
    | bool b => simp [from_message, hl, matchPref]
    | num i => simp [from_message, hl, matchPref]
    | arr xs => simp [from_message, hl, matchPref]
    | obj kvs => simp [from_message, hl, matchPref]
  · intro m w _
    cases w with
    | ALWAYS => exact Or.inl rfl
    | MAX_ONLY => exact Or.inr (Or.inl rfl)
    | NEVER => exact Or.inr (Or.inr (Or.inl rfl))
    | UNKNOWN => exact Or.inr (Or.inr (Or.inr rfl))
  · intro m
    cases m with
    | obj fields =>
      left
      cases h : List.lookup keyWTH fields with
      | none => exact ⟨.UNKNOWN, by simp [from_message, h]⟩
      | some v => exact ⟨matchPref v, by simp [from_message, h]⟩
    | null => exact Or.inr rfl
    | bool b => exact Or.inr rfl
    | num i => exact Or.inr rfl
    | str s => exact Or.inr rfl
    | arr xs => exact Or.inr rfl

/-- C5 witness: the amended statement at the empty object, whose lookup of
the preference key finds nothing. -/
theorem C5_witness : from_message (.obj []) = .ok .UNKNOWN :=
  C5_preference_total.2.1 [] rfl

/-- C6 counterexample: the `always` request is successfully decoded from the
input stream, yet with the `pidof` executable missing no reply is written —
the run dies with exit status 1 and empty output — refuting the "reply if
decoded" direction. -/
theorem C6_counterexample :
    get_message (send_message jAlways) = .ok jAlways ∧
    mainRun (send_message jAlways) envPidofAbsent = ⟨1, []⟩ :=
  ⟨rfl, by decide⟩

/-- C6 (amended): each invocation writes either nothing or exactly one reply;
a reply is only written after a request was successfully decoded and is one
of the two shapes `\x7b"okay": true\x7d` and `\x7b"knownFailure": t\x7d` with
`t` one of the two failure tags; and decoding alone does not guarantee a
reply — it is written exactly when the subsequent decoration step also
succeeds, in which case it is the reply determined by the policy. -/
theorem C6_reply_shapes (input : List Nat) (env : Env) :
    ((mainRun input env).output = [] ∨
      ((∃ m, get_message input = .ok m) ∧
        ((mainRun input env).output = send_message replyOkay ∨
         (mainRun input env).output = send_message replyMaxOnly ∨
         (mainRun input env).output = send_message replyUnknown))) ∧
    (∀ m w result, get_message input = .ok m → from_message m = .ok w →
      hide_title_bar env PROC_NAME w = .ok result →
      (mainRun input env).output = send_message (reply_of_result result)) := by
  constructor
  · cases hg : get_message input with
    | error e => left; cases e <;> simp [mainRun, hg]
    | ok m =>
      cases hf : from_message m with
      | error e => left; simp [mainRun, hg, hf]
      | ok w =>
        cases hh : hide_title_bar env PROC_NAME w with
        | error e => left; simp [mainRun, hg, hf, hh]
        | ok result =>
          right
          refine ⟨⟨m, rfl⟩, ?_⟩
          cases result with
          | none =>
            right; right
            simp [mainRun, hg, hf, hh, reply_of_result, replyUnknown]
          | some b =>
            cases b with
            | true => left; simp [mainRun, hg, hf, hh, reply_of_result, replyOkay]
            | false =>
              right; left
              simp [mainRun, hg, hf, hh, reply_of_result, replyMaxOnly]
  · intro m w result hg hf hh
    simp [mainRun, hg, hf, hh]

/-- C6 witness: the amended statement's success conjunct at the `always`
request in an environment where both commands succeed. -/
theorem C6_witness :
    (mainRun (send_message jAlways) envNoWindows).output =
      send_message (reply_of_result (some true)) :=
  (C6_reply_shapes (send_message jAlways) envNoWindows).2 jAlways .ALWAYS (some true)
    rfl rfl rfl

/-- C7 counterexample: an input decode error (a length prefix followed by
unparsable text) terminates the process with status 1 and no reply — the same
exit status as the `pidof`-executable-missing failure class, so the fatal
classes do not all carry distinct statuses. -/
theorem C7_counterexample :
    mainRun (packUI32 4 ++ s2c "xxxx") envPidofAbsent = ⟨1, []⟩ ∧
    mainRun (send_message jAlways) envPidofAbsent = ⟨1, []⟩ :=
  ⟨by decide, by decide⟩

/-- C7 (amended): the process exits with status 0 on the empty-message early
exit and after a successful reply; every input decode error other than the
empty message exits with status 1 and no reply; a failure of the decoration
step exits with no reply and the status of its exception class — 1 for
executable not found, 2 for a non-zero command exit, 3 for undecodable
command output, pairwise distinct — but an input decode error shares status 1
with the executable-not-found class rather than being distinct from it. -/
theorem C7_exit_codes (input : List Nat) (env : Env) :
    (get_message input = .error .emptyMessage → mainRun input env = ⟨0, []⟩) ∧
    (∀ e, get_message input = .error e → e ≠ .emptyMessage → mainRun input env = ⟨1, []⟩) ∧
    (∀ m w result, get_message input = .ok m → from_message m = .ok w →
      hide_title_bar env PROC_NAME w = .ok result →
      mainRun input env = ⟨0, send_message (reply_of_result result)⟩) ∧
    (∀ m w e, get_message input = .ok m → from_message m = .ok w →
      hide_title_bar env PROC_NAME w = .error e →
      mainRun input env = ⟨pyExitCode e, []⟩) ∧
    (pyExitCode .fileNotFound = 1 ∧ pyExitCode .calledProcessError = 2 ∧
      pyExitCode .unicodeDecodeError = 3) := by
  refine ⟨?_, ?_, ?_, ?_, rfl, rfl, rfl⟩
  · intro h
    simp [mainRun, h]
  · intro e h he
    cases e with
    | emptyMessage => exact absurd rfl he
    | structError => simp [mainRun, h]
    | unicodeDecodeError => simp [mainRun, h]
    | jsonDecodeError => simp [mainRun, h]
  · intro m w result hg hf hh
    simp [mainRun, hg, hf, hh]
  · intro m w e hg hf hh
    simp [mainRun, hg, hf, hh]

/-- C7 witness: the amended statement's decode-error conjunct at a framed
unparsable payload. -/
theorem C7_witness : mainRun (packUI32 4 ++ s2c "xxxx") envNoWindows = ⟨1, []⟩ :=
  (C7_exit_codes (packUI32 4 ++ s2c "xxxx") envNoWindows).2.1 .jsonDecodeError rfl
    (by decide)

/-- C8: window-line parsing — a line splitting into at least four
whitespace-run tokens parses as hexadecimal id, decimal desktop, decimal pid
and machine, with the remaining tokens rejoined by single spaces as the
title; a line with fewer than four tokens, or whose id/desktop/pid token
fails integer parsing, yields no window and is dropped without aborting
enumeration of the remaining lines; the documented example line parses to the
documented window. -/
theorem C8_window_parsing :
    (∀ line t0 t1 t2 t3 rest i d p,
      pySplitWs line = t0 :: t1 :: t2 :: t3 :: rest →
      pyInt 16 t0 = some i → pyInt 10 t1 = some d → pyInt 10 t2 = some p →
      window_from_string line = some ⟨i, d, p, t3, spaceJoin rest⟩) ∧
    (∀ line, (pySplitWs line).length < 4 → window_from_string line = none) ∧
    (∀ line t0 t1 t2 t3 rest,
      pySplitWs line = t0 :: t1 :: t2 :: t3 :: rest →
      (pyInt 16 t0 = none ∨ pyInt 10 t1 = none ∨ pyInt 10 t2 = none) →
      window_from_string line = none) ∧
    (∀ lines line, window_from_string line = none →
      windowsOfLines (lines ++ [line]) = windowsOfLines lines) ∧
    (window_from_string (s2c "1a2b 0 4321 host.example Some Title") =
      some ⟨6699, 0, 4321, s2c "host.example", s2c "Some Title"⟩) := by
  refine ⟨?_, ?_, ?_, ?_, by decide⟩
  · intro line t0 t1 t2 t3 rest i d p hs h0 h1 h2
    simp [window_from_string, hs, h0, h1, h2]
  · intro line h4
    rw [window_from_string]
    split
    · rename_i heq
      rw [heq] at h4
      simp only [List.length_cons] at h4
      omega
    · rfl
  · intro line t0 t1 t2 t3 rest hs hbad
    cases h0 : pyInt 16 t0 with
    | none => simp [window_from_string, hs, h0]
    | some i =>
      cases h1 : pyInt 10 t1 with
      | none => simp [window_from_string, hs, h0, h1]
      | some d =>
        cases h2 : pyInt 10 t2 with
        | none => simp [window_from_string, hs, h0, h1, h2]
        | some p => rcases hbad with h | h | h <;> simp_all
  · intro lines line hn
    simp only [windowsOfLines, List.filter_append, List.filterMap_append]
    by_cases he : line.isEmpty <;> simp [he, hn]

/-- C8 witness: the parsing conjuncts at the documented example line and at a
three-token line. -/
theorem C8_witness :
    window_from_string (s2c "1a2b 0 4321 host.example Some Title") =
      some ⟨6699, 0, 4321, s2c "host.example", s2c "Some Title"⟩ ∧
    window_from_string (s2c "1a2b 0 4321") = none :=
  ⟨C8_window_parsing.1 (s2c "1a2b 0 4321 host.example Some Title")
      (s2c "1a2b") (s2c "0") (s2c "4321") (s2c "host.example")
      [s2c "Some", s2c "Title"] 6699 0 4321 (by decide) (by decide) (by decide)
      (by decide),
    C8_window_parsing.2.1 (s2c "1a2b 0 4321") (by decide)⟩

/-- C9: on the empty input stream `get_message` signals `EmptyMessage` (no
other error and no value), and the process exits cleanly with status 0
having written nothing to the output stream, whatever the environment. -/
theorem C9_empty_input :
    get_message [] = .error .emptyMessage ∧ ∀ env, mainRun [] env = ⟨0, []⟩ :=
  ⟨rfl, fun _ => rfl⟩

/-- C10: the serialized form of every JSON value is pure ASCII
(`ensure_ascii=True`), so its UTF-8 encoding is byte-for-byte the character
sequence and the packed length prefix of `send_message` — computed from the
character count — equals the byte count of the payload that follows it. -/
theorem C10_ascii_framing (v : Json) :
    (∀ x ∈ render v, x < 128) ∧
    (utf8Encode (render v)).length = (render v).length ∧
    send_message v = packUI32 (utf8Encode (render v)).length ++ utf8Encode (render v) := by
  have hasc := (render_ascii (jsize v)).1 v le_rfl
  refine ⟨hasc, ?_, ?_⟩
  · rw [utf8Encode_ascii _ hasc]
  · rw [send_message, utf8Encode_ascii _ hasc]

/-- C10 witness: the framing invariant at the okay reply. -/
theorem C10_witness :
    (utf8Encode (render replyOkay)).length = (render replyOkay).length :=
  (C10_ascii_framing replyOkay).2.1
